import Mathlib

/-!
# Diagnostic core of the Kotlin/Native runtime: bounded formatting, assert reporting, stack traces

A shallow embedding of

* `Format.h` (`FormatToSpan`, `VFormatToSpan`),
* `KAssert.cpp` (`PrintAssert`, `RuntimeAssertFailedLog`, `RuntimeAssertFailedPanic`),
* `StackTrace.cpp` (`Backtrace`, `GetCurrentStackTrace`, `GetStackTraceStrings`,
  `DisallowSourceInfo`, `PrintStackTraceStderr`),
* `SourceInfo.cpp` (`Kotlin_getSourceInfo` over libbacktrace),

followed by the properties proved about them.

Conventions: a `char` is a natural number (its code), a C string is the list of its bytes
without the terminator, memory is a total map from addresses to bytes, and an `int` is an
`Int` reduced with `wrapInt32` where the source does `int` arithmetic.
-/

namespace KotlinNative

/-! ## Bytes, C strings and memory -/

/-- The bytes of an ASCII literal of the source. -/
def cstr (s : String) : List Nat := s.toList.map Char.toNat

/-- The C string a `const char*` denotes when the bytes at the pointer are `bytes` followed by
a terminator: the bytes up to the first terminator. -/
def cString (bytes : List Nat) : List Nat := bytes.takeWhile (fun b => b != 0)

/-- Flat byte memory: address to byte. -/
abbrev Memory := Nat → Nat

/-- Store of one byte: `p[0] = b`. -/
def store (mem : Memory) (p : Nat) (b : Nat) : Memory :=
  fun a => if a = p then b else mem a

/-- Store of a run of bytes starting at `p`, lowest address first. -/
def storeBytes (mem : Memory) (p : Nat) : List Nat → Memory
  | [] => mem
  | b :: bs => storeBytes (store mem p b) (p + 1) bs

/-- The `n` bytes of memory starting at `p`. -/
def loadBytes (mem : Memory) (p n : Nat) : List Nat :=
  (List.range n).map (fun i => mem (p + i))

/-- The C string found in the `n`-byte array at `p`: its bytes up to the first terminator. -/
def loadCStr (mem : Memory) (p n : Nat) : List Nat :=
  cString (loadBytes mem p n)

/-- The view `std_support::span<char>`: a pointer and a number of bytes. -/
structure Span where
  data : Nat
  size : Nat
deriving DecidableEq, Repr

/-- The member `span::first(n)` as the tests use it (`n` no larger than the size). -/
def Span.first (s : Span) (n : Nat) : Span := ⟨s.data, n⟩

/-! ## The printf family -/

/-- One variadic argument. -/
inductive Arg where
  | str (s : List Nat)
  | int (v : Int)
  | ptr (p : Nat)
deriving DecidableEq, Repr

/-- Decimal digits of `n`, most significant first; `fuel` bounds the number of digits. -/
def decDigits : Nat → Nat → List Nat
  | 0, _ => []
  | fuel + 1, n => if n < 10 then [48 + n] else decDigits fuel (n / 10) ++ [48 + n % 10]

/-- Hexadecimal digit, lower case. -/
def hexDigit (d : Nat) : Nat := if d < 10 then 48 + d else 87 + d

/-- Hexadecimal digits of `n`, most significant first; `fuel` bounds the number of digits. -/
def hexDigits : Nat → Nat → List Nat
  | 0, _ => []
  | fuel + 1, n => if n < 16 then [hexDigit n] else hexDigits fuel (n / 16) ++ [hexDigit (n % 16)]

/-- The conversion `%d`. -/
def formatInt (v : Int) : List Nat :=
  if v < 0 then 45 :: decDigits (v.natAbs + 1) v.natAbs else decDigits (v.natAbs + 1) v.natAbs

/-- The conversion `%p`, which the C standard leaves to the implementation: here as glibc
prints it. -/
def formatPtr (p : Nat) : List Nat :=
  if p = 0 then cstr "(nil)" else cstr "0x" ++ hexDigits (p + 1) p

/-- One conversion: the text it produces and the arguments left. The conversions are those
the runtime uses, `%s` (the C string at its argument), `%d` and `%p`. A conversion outside
this set, or one whose argument has another type, is undefined in C; here it produces nothing
and consumes one argument. -/
def printfConversion (c : Nat) (args : List Arg) : List Nat × List Arg :=
  match c, args with
  | 115, Arg.str s :: more => (cString s, more)
  | 100, Arg.int v :: more => (formatInt v, more)
  | 112, Arg.ptr p :: more => (formatPtr p, more)
  | _, more => ([], more.tail)

/-- The text a printf-family routine produces for a format and its arguments. The flag is
true right after a `%`; the format ends at its terminator, and `%%` prints a percent sign. -/
def printfGo : Bool → List Nat → List Arg → List Nat
  | _, [], _ => []
  | false, c :: rest, args =>
    if c = 0 then []
    else if c = 37 then printfGo true rest args
    else c :: printfGo false rest args
  | true, c :: rest, args =>
    if c = 0 then []
    else if c = 37 then 37 :: printfGo false rest args
    else (printfConversion c args).1 ++ printfGo false rest (printfConversion c args).2

/-- The full formatted text of a format call. -/
def printfText (format : List Nat) (args : List Arg) : List Nat :=
  printfGo false format args

/-! ## Format.h -/

/-- Modelled from the spec: `Format.cpp` is missing; these are the three steps section 4.1
gives for a formatted text. A view of capacity zero is returned unchanged and nothing is
stored. Otherwise `n = min(formatted-length, capacity - 1)`, the first `n` bytes of the
formatted text are stored at the pointer, a terminator is stored right after them, and the
view returned has its pointer advanced by `n` and its capacity reduced by `n`. -/
def putText (mem : Memory) (buffer : Span) (text : List Nat) : Memory × Span :=
  if buffer.size = 0 then (mem, buffer)
  else
    let n := min text.length (buffer.size - 1)
    let mem1 := storeBytes mem buffer.data (text.take n)
    let mem2 := store mem1 (buffer.data + n) 0
    (mem2, ⟨buffer.data + n, buffer.size - n⟩)

/-- Modelled from the spec: `Format.cpp`, the body of `VFormatToSpan`, is missing; the text is
the one a printf-family routine computes (section 4.1). -/
def VFormatToSpan (mem : Memory) (buffer : Span) (format : List Nat) (args : List Arg) :
    Memory × Span :=
  putText mem buffer (printfText format args)

/-- Modelled from the spec: `Format.cpp`, the body of `FormatToSpan`, is missing; it is the
variadic front of `VFormatToSpan` (section 4.1). -/
def FormatToSpan (mem : Memory) (buffer : Span) (format : List Nat) (args : List Arg) :
    Memory × Span :=
  VFormatToSpan mem buffer format args

/-- Memory filled with the sentinel byte `'\1'` of the tests in `FormatTest.cpp`; their
five-byte array is the addresses 0 to 4. -/
def sentinelBuffer : Memory := fun _ => 1

/-! ## Machine integers and outcomes -/

/-- The value of an `int` after two's complement wrap-around to 32 bits. -/
def wrapInt32 (z : Int) : Int := (z + 2147483648) % 4294967296 - 2147483648

/-- Conversion of an `int` to `uint32_t`: reduction modulo `2^32`. -/
def toUInt32 (z : Int) : Nat := (z % 4294967296).toNat

/-! ## StackTrace.cpp -/

/-- The unwinding strategy compiled in: `KONAN_NO_BACKTRACE`, `USE_GCC_UNWIND`, or neither
(glibc `backtrace`). -/
inductive Backend where
  | NoBacktrace
  | GccUnwind
  | LibcBacktrace
deriving DecidableEq, Repr

/-- The record `SourceInfo` of `SourceInfo.h`; a null `fileName` is `none`. -/
structure SourceInfo where
  fileName : Option (List Nat)
  lineNumber : Int
  column : Int
  needFreeFileName : Bool := false
deriving DecidableEq, Repr

/-- One frame of the call stack as the unwinder reports it. -/
structure Frame where
  ip : Nat
  regionStart : Nat
deriving DecidableEq, Repr

/-- What is fixed outside these files: the build configuration and the collaborators
`AddressToSymbol` (`ExecFormat.h`), glibc `backtrace_symbols` (the string it prints for an
address, and whether its `malloc` succeeds) and the provider `Kotlin_getSourceInfo` in the
one-argument form `StackTrace.cpp` calls. -/
structure Env where
  backend : Backend
  mingw : Bool
  windows : Bool
  AddressToSymbol : Nat → Option (List Nat)
  osSymbol : Nat → List Nat
  symbolsAllocated : Bool
  Kotlin_getSourceInfo : Nat → SourceInfo

/-- The state of one thread: the thread-local `disallowSourceInfo`, the addresses the
provider `Kotlin_getSourceInfo` has been called with, and the bytes written to the error
console. -/
structure Thread where
  disallowSourceInfo : Bool := false
  sourceInfoCalls : List Nat := []
  stderr : List Nat := []
deriving DecidableEq, Repr

/-- How a call ends. -/
inductive Run (α : Type) where
  /-- The call returns. -/
  | done (value : α)
  /-- The process is terminated, by a failed `RuntimeCheck` or by `konan::abort()`; `last` is
  the state of the thread when the failed check or the abort call is reached. -/
  | abort (last : Thread)
  /-- The call reads outside an array: no defined C++ behaviour. -/
  | undefined
deriving DecidableEq, Repr

/-- The call `konan::consoleErrorUtf8(p, n)`, with the `n` bytes at `p` given: they go to the
error console. -/
def consoleErrorUtf8 (th : Thread) (bytes : List Nat) : Thread :=
  { th with stderr := th.stderr ++ bytes }

/-- The call `konan::consoleErrorf(format, ...)`: the formatted text goes to the error
console. -/
def consoleErrorf (th : Thread) (format : List Nat) (args : List Arg) : Thread :=
  { th with stderr := th.stderr ++ printfText format args }

/-- The container `KStdVector<void*>`: its elements and its capacity. -/
structure KStdVector where
  elems : List Nat := []
  capacity : Nat := 0
deriving DecidableEq, Repr

/-- The member `reserve(n)`: the capacity becomes at least `n`. Allocation is taken to
succeed. -/
def KStdVector.reserve (v : KStdVector) (n : Nat) : KStdVector :=
  if v.capacity < n then { v with capacity := n } else v

/-- The member `push_back(x)`; a full vector grows by doubling. -/
def KStdVector.push_back (v : KStdVector) (x : Nat) : KStdVector :=
  { elems := v.elems ++ [x]
    capacity := if v.elems.length < v.capacity then v.capacity else max 1 (2 * v.capacity) }

/-- The record `Backtrace` of the unwind-table backend. -/
structure Backtrace where
  skipCount : Int
  array : KStdVector
deriving DecidableEq, Repr

/-- The constructor `Backtrace(int count, int skip)` (a record cannot share its name with a
function here, hence `construct`). The local `size` is a `uint32_t`, so the test `size < 0`
is one on a natural number. -/
def Backtrace.construct (count skip : Int) : Backtrace :=
  let size : Nat := toUInt32 (wrapInt32 (count - skip))
  let size : Nat := if size < 0 then 0 else size
  { skipCount := skip, array := KStdVector.reserve {} size }

/-- The member `setNextElement`. -/
def Backtrace.setNextElement (b : Backtrace) (element : Nat) : Backtrace :=
  { b with array := b.array.push_back element }

/-- The callback of pass 1; it returns `_URC_NO_REASON`, so the walk goes on. -/
def depthCountCallback (_context : Frame) (result : Int) : Int :=
  wrapInt32 (result + 1)

/-- The callback of pass 2; it returns `_URC_NO_REASON`, so the walk goes on. -/
def unwindCallback (mingw : Bool) (context : Frame) (backtrace : Backtrace) : Backtrace :=
  if backtrace.skipCount > 0 then
    { backtrace with skipCount := wrapInt32 (backtrace.skipCount - 1) }
  else
    let address := if mingw then context.regionStart else context.ip
    backtrace.setNextElement address

/-- The walk `_Unwind_Backtrace(callback, arg)` over the call stack, innermost frame first,
for callbacks that always return `_URC_NO_REASON`. -/
def _Unwind_Backtrace {σ : Type} (callStack : List Frame) (callback : Frame → σ → σ) (arg : σ) : σ :=
  callStack.foldl (fun s context => callback context s) arg

/-- The glibc call `backtrace(buffer, maxSize)`: the filled part of `buffer`, whose length is
the value returned. -/
def backtrace (callStack : List Frame) (maxSize : Nat) : List Nat :=
  (callStack.take maxSize).map Frame.ip

/-- The loop `for (index = kSkipFrames; index < size; ++index) result.push_back(buffer[index])`
with `n` iterations left. -/
def copyFrames (buffer : List Nat) : Nat → Int → KStdVector → Run KStdVector
  | 0, _, result => Run.done result
  | n + 1, index, result =>
    if index < 0 then Run.undefined
    else match buffer.get? index.toNat with
      | none => Run.undefined
      | some address => copyFrames buffer n (index + 1) (result.push_back address)

/-- The function `kotlin::GetCurrentStackTrace`. -/
def GetCurrentStackTrace (env : Env) (callStack : List Frame) (extraSkipFrames : Int) :
    Run KStdVector :=
  match env.backend with
  | Backend.NoBacktrace => Run.done {}
  | Backend.GccUnwind =>
    let kSkipFrames := wrapInt32 (1 + extraSkipFrames)
    let depth := _Unwind_Backtrace callStack depthCountCallback 0
    let result := Backtrace.construct depth kSkipFrames
    let result :=
      if result.array.capacity > 0 then _Unwind_Backtrace callStack (unwindCallback env.mingw) result
      else result
    Run.done result.array
  | Backend.LibcBacktrace =>
    let kSkipFrames := wrapInt32 (1 + extraSkipFrames)
    let maxSize := 32
    let buffer := backtrace callStack maxSize
    let size : Int := buffer.length
    if size < kSkipFrames then Run.done {}
    else
      let result := KStdVector.reserve {} (size - kSkipFrames).toNat
      copyFrames buffer (size - kSkipFrames).toNat kSkipFrames result

/-- The static function `getSourceInfo`. -/
def getSourceInfo (env : Env) (th : Thread) (symbol : Nat) : SourceInfo × Thread :=
  if th.disallowSourceInfo then
    ({ fileName := none, lineNumber := -1, column := -1 }, th)
  else
    (env.Kotlin_getSourceInfo symbol, { th with sourceInfoCalls := th.sourceInfoCalls ++ [symbol] })

/-- The glibc call `backtrace_symbols(buffer, size)`: null when its `malloc` fails, else one
string for each of the first `size` addresses. -/
def backtrace_symbols (env : Env) (buffer : List Nat) (size : Int) : Option (List (List Nat)) :=
  if env.symbolsAllocated then some ((buffer.take size.toNat).map env.osSymbol) else none

/-- The body of the loop of the unwind-table branch of `GetStackTraceStrings`: the string pushed
for one address. The local arrays start with the content `garbage`. -/
def unwindLine (env : Env) (garbage : Memory) (address : Nat) : List Nat :=
  let symbol := match env.AddressToSymbol address with
    | some name => cString name
    | none => []
  let line := (FormatToSpan garbage ⟨0, 512⟩ (cstr "%s (%p)") [Arg.str symbol, Arg.ptr address]).1
  loadCStr line 0 512

/-- The body of the loop of the `backtrace_symbols` branch of `GetStackTraceStrings` after the
lookups: the string pushed for a symbol and its source info. -/
def libcLine (garbage : Memory) (symbol : List Nat) (sourceInfo : SourceInfo) : List Nat :=
  match sourceInfo.fileName with
  | some fileName =>
    let line :=
      if sourceInfo.lineNumber != -1 then
        (FormatToSpan garbage ⟨0, 1024⟩ (cstr "%s (%s:%d:%d)")
          [Arg.str symbol, Arg.str fileName, Arg.int sourceInfo.lineNumber,
            Arg.int sourceInfo.column]).1
      else
        (FormatToSpan garbage ⟨0, 1024⟩ (cstr "%s (%s:<unknown>)")
          [Arg.str symbol, Arg.str fileName]).1
    loadCStr line 0 1024
  | none => cString symbol

/-- The loop of the `backtrace_symbols` branch from `index` on, over the addresses left. -/
def libcLoop (env : Env) (garbage : Memory) (symbols : List (List Nat)) :
    List Nat → Nat → Thread → List (List Nat) → Run (List (List Nat) × Thread)
  | [], _, th, strings => Run.done (strings, th)
  | address :: rest, index, th, strings =>
    let sourceInfo := getSourceInfo env th address
    match symbols.get? index with
    | none => Run.undefined
    | some symbol =>
      libcLoop env garbage symbols rest (index + 1) sourceInfo.2
        (strings ++ [libcLine garbage symbol sourceInfo.1])

/-- The function `kotlin::GetStackTraceStrings`; `stackTraceSize` is the length of
`stackTrace`. -/
def GetStackTraceStrings (env : Env) (garbage : Memory) (th : Thread) (stackTrace : List Nat) :
    Run (List (List Nat) × Thread) :=
  match env.backend with
  | Backend.NoBacktrace => Run.done ([cstr "<UNIMPLEMENTED>"], th)
  | Backend.GccUnwind =>
    Run.done (stackTrace.foldl (fun strings address => strings ++ [unwindLine env garbage address]) [],
      th)
  | Backend.LibcBacktrace =>
    if stackTrace.length > 0 then
      match backtrace_symbols env stackTrace (wrapInt32 stackTrace.length) with
      | none => Run.abort th
      | some symbols => libcLoop env garbage symbols stackTrace 0 th []
    else Run.done ([], th)

/-- The function `kotlin::DisallowSourceInfo`. -/
def DisallowSourceInfo (th : Thread) : Thread :=
  { th with disallowSourceInfo := true }

/-- The function `kotlin::PrintStackTraceStderr`, called where the unwinder reports
`callStack`. -/
def PrintStackTraceStderr (env : Env) (garbage : Memory) (th : Thread) (callStack : List Frame) :
    Run Thread :=
  let kSkipFrames : Int := if env.windows then 2 else 1
  match GetCurrentStackTrace env callStack kSkipFrames with
  | Run.done stackTrace =>
    match GetStackTraceStrings env garbage th stackTrace.elems with
    | Run.done (stackTraceStrings, th1) =>
      Run.done (stackTraceStrings.foldl
        (fun t frame => consoleErrorf (consoleErrorUtf8 t frame) (cstr "\n") []) th1)
    | Run.abort last => Run.abort last
    | Run.undefined => Run.undefined
  | Run.abort last => Run.abort last
  | Run.undefined => Run.undefined

/-- One call into the module by a thread, with what the unwinder reports at that point. -/
inductive Call where
  | getCurrentStackTrace (callStack : List Frame) (extraSkipFrames : Int)
  | getStackTraceStrings (stackTrace : List Nat)
  | disallowSourceInfo
  | printStackTraceStderr (callStack : List Frame)

/-- The effect of one call on the thread. -/
def Call.run (env : Env) (garbage : Memory) (th : Thread) : Call → Run Thread
  | Call.getCurrentStackTrace callStack extraSkipFrames =>
    match GetCurrentStackTrace env callStack extraSkipFrames with
    | Run.done _ => Run.done th
    | Run.abort last => Run.abort last
    | Run.undefined => Run.undefined
  | Call.getStackTraceStrings stackTrace =>
    match GetStackTraceStrings env garbage th stackTrace with
    | Run.done r => Run.done r.2
    | Run.abort last => Run.abort last
    | Run.undefined => Run.undefined
  | Call.disallowSourceInfo => Run.done (DisallowSourceInfo th)
  | Call.printStackTraceStderr callStack => PrintStackTraceStderr env garbage th callStack

/-- A sequence of calls by one thread, in order; it ends at the first call that does not
return. -/
def runCalls (env : Env) (garbage : Memory) : List Call → Thread → Run Thread
  | [], th => Run.done th
  | call :: rest, th =>
    match call.run env garbage th with
    | Run.done th1 => runCalls env garbage rest th1
    | Run.abort last => Run.abort last
    | Run.undefined => Run.undefined

/-! ## KAssert.cpp -/

/-- The constant `kEnableStacktraces`. -/
def kEnableStacktraces : Bool := false

/-- The function `PrintAssert`; a null `location` is `none`, and the local array
`bufferStorage` starts with the content `garbage`. -/
def PrintAssert (env : Env) (garbage : Memory) (callStack : List Frame) (th : Thread)
    (location : Option (List Nat)) (format : List Nat) (args : List Arg) : Run Thread :=
  let bufferStorage : Span := ⟨0, 1024⟩
  let title :=
    match location with
    | some text => FormatToSpan garbage bufferStorage (cstr "%s: runtime assert: ") [Arg.str text]
    | none => FormatToSpan garbage bufferStorage (cstr "runtime assert: ") []
  let message := VFormatToSpan title.1 title.2 format args
  let th1 := consoleErrorUtf8 th
    (loadBytes message.1 bufferStorage.data (bufferStorage.size - message.2.size))
  let th2 := consoleErrorf th1 (cstr "\n") []
  if kEnableStacktraces then PrintStackTraceStderr env garbage th2 callStack else Run.done th2

/-- The function `internal::RuntimeAssertFailedLog`. -/
def RuntimeAssertFailedLog (env : Env) (garbage : Memory) (callStack : List Frame) (th : Thread)
    (location : Option (List Nat)) (format : List Nat) (args : List Arg) : Run Thread :=
  PrintAssert env garbage callStack th location format args

/-- The function `internal::RuntimeAssertFailedPanic`: after `PrintAssert` comes
`konan::abort()`. -/
def RuntimeAssertFailedPanic (env : Env) (garbage : Memory) (callStack : List Frame) (th : Thread)
    (location : Option (List Nat)) (format : List Nat) (args : List Arg) : Run Thread :=
  match PrintAssert env garbage callStack th location format args with
  | Run.done th1 => Run.abort th1
  | Run.abort last => Run.abort last
  | Run.undefined => Run.undefined

/-! ## SourceInfo.cpp -/

/-- One line record as libbacktrace passes it to a `backtrace_full_callback`: the arguments
`pc`, `filename`, `lineno`, `function`; a null pointer is `none`. -/
structure LineRecord where
  pc : Nat
  filename : Option (List Nat)
  lineno : Int
  function : Option (List Nat)
deriving DecidableEq, Repr

/-- The local record `callback_arg_t`; `result` is the caller's array, by index. -/
structure callback_arg_t where
  result : Int → SourceInfo
  result_ptr : Int
  result_size : Int

/-- The library call `strdup`: a copy of the C string. -/
def strdup (s : List Nat) : List Nat := cString s

/-- The lambda `process_line`: the record after the call and the value returned. The
increment is exact: it happens below `result_size`, itself an `int`. -/
def process_line (data : callback_arg_t) (line : LineRecord) : callback_arg_t × Int :=
  let data1 : callback_arg_t :=
    if data.result_ptr < data.result_size then
      let info : SourceInfo :=
        { fileName := line.filename.map strdup
          lineNumber := line.lineno
          column := -1
          needFreeFileName := true }
      { data with
        result := fun i => if i = data.result_ptr then info else data.result i
        result_ptr := data.result_ptr + 1 }
    else data
  (data1, if data1.result_ptr = data1.result_size then 1 else 0)

/-- The libbacktrace call `backtrace_pcinfo(state, pc, callback, error_callback, data)`, given
the line records it delivers to the callback, in order. What it delivers is the choice of the
library (it stops once the callback returns nonzero); the callback runs on every record
delivered. -/
def backtrace_pcinfo (delivered : List LineRecord)
    (callback : callback_arg_t → LineRecord → callback_arg_t × Int) (data : callback_arg_t) :
    callback_arg_t :=
  delivered.foldl (fun d line => (callback d line).1) data

/-- The function `Kotlin_getSourceInfo` of `SourceInfo.cpp`: the array after the call and the
value returned. `state` tells whether `backtrace_create_state` gave a state. -/
def Kotlin_getSourceInfo (state : Bool) (delivered : List LineRecord)
    (result : Int → SourceInfo) (result_size : Int) : (Int → SourceInfo) × Int :=
  if !state then (result, 0)
  else
    let callback_arg : callback_arg_t :=
      { result := result, result_ptr := 0, result_size := result_size }
    let callback_arg := backtrace_pcinfo delivered process_line callback_arg
    (callback_arg.result, callback_arg.result_ptr)

/-! ## Texts and values the statements refer to -/

/-- What a test of `FormatTest.cpp` observes: the five bytes of its array after the call, and
the view returned, for a call on the first `size` bytes of the array. -/
def formatTestRun (size : Nat) (format : String) (args : List Arg) : List Nat × Span :=
  let r := FormatToSpan sentinelBuffer (Span.first ⟨0, 5⟩ size) (cstr format) args
  (loadBytes r.1 0 5, r.2)

/-- The number a run of decimal digits denotes. -/
def decValue (digits : List Nat) : Nat :=
  digits.foldl (fun acc d => 10 * acc + (d - 48)) 0

/-- The text `T` of an assert report: the location, when there is one, then the title, then
the formatted message. -/
def assertText (location : Option (List Nat)) (format : List Nat) (args : List Arg) : List Nat :=
  match location with
  | some text => cString text ++ cstr ": runtime assert: " ++ printfText format args
  | none => cstr "runtime assert: " ++ printfText format args

/-- The text of a line with source info, before it is cut to the line buffer:
`"<symbol> (<file>:<line>:<column>)"` when the line is known, `"<symbol> (<file>:<unknown>)"`
when it is not. -/
def sourceInfoText (symbol fileName : List Nat) (lineNumber column : Int) : List Nat :=
  if lineNumber ≠ -1 then
    cString symbol ++ cstr " (" ++ cString fileName ++ cstr ":" ++ formatInt lineNumber
      ++ cstr ":" ++ formatInt column ++ cstr ")"
  else
    cString symbol ++ cstr " (" ++ cString fileName ++ cstr ":<unknown>)"

/-- The text of a line of the unwind-table backend, before it is cut to the line buffer:
`"<symbol> (<address>)"`, with the empty symbol when the lookup fails. -/
def unwindText (env : Env) (address : Nat) : List Nat :=
  (match env.AddressToSymbol address with
    | some name => cString name
    | none => []) ++ cstr " (" ++ formatPtr address ++ cstr ")"

/-- The source info `getSourceInfo` gives for an address, by the value of the flag. -/
def sourceInfoOf (env : Env) (disallow : Bool) (address : Nat) : SourceInfo :=
  if disallow then { fileName := none, lineNumber := -1, column := -1 }
  else env.Kotlin_getSourceInfo address

/-- The string `GetStackTraceStrings` pushes for an address, by backend; the disabled backend
has no string for an address, its placeholder stands there. -/
def renderAddress (env : Env) (disallow : Bool) (address : Nat) : List Nat :=
  match env.backend with
  | Backend.NoBacktrace => cstr "<UNIMPLEMENTED>"
  | Backend.GccUnwind => (unwindText env address).take 511
  | Backend.LibcBacktrace =>
    match (sourceInfoOf env disallow address).fileName with
    | some fileName =>
      (sourceInfoText (env.osSymbol address) fileName
        (sourceInfoOf env disallow address).lineNumber
        (sourceInfoOf env disallow address).column).take 1023
    | none => cString (env.osSymbol address)

/-- The thread after the lookups of one `GetStackTraceStrings` loop over `addresses`. -/
def afterLookups (th : Thread) (addresses : List Nat) : Thread :=
  if th.disallowSourceInfo then th
  else { th with sourceInfoCalls := th.sourceInfoCalls ++ addresses }

/-- A sample configuration: every address has the OS symbol `"sym"`, the symbol name `"fn"`
and the source info `f.kt`, line 7, column 3. -/
def sampleEnv (backend : Backend) : Env :=
  { backend := backend
    mingw := false
    windows := false
    AddressToSymbol := fun _ => some (cstr "fn")
    osSymbol := fun _ => cstr "sym"
    symbolsAllocated := true
    Kotlin_getSourceInfo := fun _ => { fileName := some (cstr "f.kt"), lineNumber := 7, column := 3 } }

/-- A configuration whose OS symbols are 1100 bytes long. -/
def longSymbolEnv : Env :=
  { sampleEnv Backend.LibcBacktrace with osSymbol := fun _ => List.replicate 1100 97 }

/-! ## Memory lemmas -/

theorem store_apply (mem : Memory) (p b a : Nat) :
    store mem p b a = if a = p then b else mem a := rfl

theorem storeBytes_apply (bs : List Nat) (mem : Memory) (p a : Nat) :
    storeBytes mem p bs a = if p ≤ a ∧ a < p + bs.length then bs.getD (a - p) 0 else mem a := by
  induction bs generalizing mem p with
  | nil =>
    have h0 : ¬ (p ≤ a ∧ a < p + ([] : List Nat).length) := by
      simp only [List.length_nil]; omega
    rw [if_neg h0, storeBytes]
  | cons b bs ih =>
    rw [storeBytes, ih]
    by_cases h1 : p + 1 ≤ a ∧ a < p + 1 + bs.length
    · have h2 : p ≤ a ∧ a < p + (b :: bs).length := by
        simp only [List.length_cons]; omega
      rw [if_pos h1, if_pos h2]
      have h3 : a - p = (a - (p + 1)) + 1 := by omega
      rw [h3, List.getD_cons_succ]
    · rw [if_neg h1, store_apply]
      by_cases h4 : a = p
      · subst h4
        simp
      · have h5 : ¬ (p ≤ a ∧ a < p + (b :: bs).length) := by
          simp only [List.length_cons]; omega
        rw [if_neg h4, if_neg h5]

/-- The memory after `putText` on a view of capacity at least one, byte by byte. -/
theorem putText_mem (mem : Memory) (buffer : Span) (text : List Nat) (h : buffer.size ≠ 0)
    (a : Nat) :
    (putText mem buffer text).1 a =
      if a = buffer.data + min text.length (buffer.size - 1) then 0
      else if buffer.data ≤ a ∧ a < buffer.data + min text.length (buffer.size - 1) then
        text.getD (a - buffer.data) 0
      else mem a := by
  simp only [putText, if_neg h, store_apply, storeBytes_apply, List.length_take]
  by_cases h1 : a = buffer.data + min text.length (buffer.size - 1)
  · rw [if_pos h1, if_pos h1]
  · rw [if_neg h1, if_neg h1]
    by_cases h2 : buffer.data ≤ a ∧ a < buffer.data + min text.length (buffer.size - 1)
    · have h3 : buffer.data ≤ a ∧
          a < buffer.data + min (min text.length (buffer.size - 1)) text.length := by
        omega
      rw [if_pos h2, if_pos h3, List.getD_eq_getElem?_getD, List.getD_eq_getElem?_getD,
        List.getElem?_take_of_lt (by omega)]
    · have h3 : ¬ (buffer.data ≤ a ∧
          a < buffer.data + min (min text.length (buffer.size - 1)) text.length) := by
        omega
      rw [if_neg h2, if_neg h3]

theorem putText_span (mem : Memory) (buffer : Span) (text : List Nat) (h : buffer.size ≠ 0) :
    (putText mem buffer text).2 =
      ⟨buffer.data + min text.length (buffer.size - 1),
        buffer.size - min text.length (buffer.size - 1)⟩ := by
  simp [putText, h]

theorem putText_zero (mem : Memory) (buffer : Span) (text : List Nat) (h : buffer.size = 0) :
    putText mem buffer text = (mem, buffer) := by
  simp [putText, h]

/-- The content bytes read back: the first `n` bytes of the view are the first `n` bytes of
the text. -/
theorem putText_load (mem : Memory) (buffer : Span) (text : List Nat) (h : buffer.size ≠ 0) :
    loadBytes (putText mem buffer text).1 buffer.data (min text.length (buffer.size - 1)) =
      text.take (min text.length (buffer.size - 1)) := by
  apply List.ext_getElem
  · simp [loadBytes]
  · intro i h1 h2
    simp only [loadBytes, List.length_map, List.length_range] at h1
    simp only [loadBytes, List.getElem_map, List.getElem_range, List.getElem_take]
    rw [putText_mem mem buffer text h, if_neg (by omega), if_pos (by omega)]
    have h3 : buffer.data + i - buffer.data = i := by omega
    rw [h3, List.getD_eq_getElem?_getD, List.getElem?_eq_getElem (by omega)]
    rfl

/-- Two writes in a row through the returned view are one write of the concatenation. -/
theorem putText_append (mem : Memory) (buffer : Span) (t1 t2 : List Nat) :
    putText (putText mem buffer t1).1 (putText mem buffer t1).2 t2 =
      putText mem buffer (t1 ++ t2) := by
  by_cases h : buffer.size = 0
  · rw [putText_zero mem buffer t1 h, putText_zero mem buffer t2 h,
      putText_zero mem buffer (t1 ++ t2) h]
  · have hs1 := putText_span mem buffer t1 h
    have h1 : (putText mem buffer t1).2.size ≠ 0 := by
      rw [hs1]; simp only; omega
    apply Prod.ext
    · funext a
      rw [putText_mem _ _ t2 h1, putText_mem mem buffer (t1 ++ t2) h,
        putText_mem mem buffer t1 h, hs1]
      simp only [List.length_append, List.getD_eq_getElem?_getD]
      by_cases c1 : a = buffer.data + min (t1.length + t2.length) (buffer.size - 1)
      · rw [if_pos c1, if_pos (by omega)]
      · rw [if_neg c1, if_neg (by omega)]
        by_cases c2 : buffer.data ≤ a ∧ a < buffer.data + min t1.length (buffer.size - 1)
        · rw [if_neg (by omega), if_neg (by omega), if_pos c2, if_pos (by omega),
            List.getElem?_append_left (by omega)]
        · by_cases c3 : buffer.data ≤ a ∧
              a < buffer.data + min (t1.length + t2.length) (buffer.size - 1)
          · rw [if_pos (by omega), if_pos c3, List.getElem?_append_right (by omega)]
            congr 2
            omega
          · rw [if_neg (by omega), if_neg (by omega), if_neg c2, if_neg c3]
    · rw [putText_span _ _ t2 h1, putText_span mem buffer (t1 ++ t2) h, hs1]
      simp only [List.length_append, Span.mk.injEq]
      omega

theorem VFormatToSpan_eq (mem : Memory) (buffer : Span) (format : List Nat) (args : List Arg) :
    VFormatToSpan mem buffer format args = putText mem buffer (printfText format args) := rfl

theorem FormatToSpan_eq (mem : Memory) (buffer : Span) (format : List Nat) (args : List Arg) :
    FormatToSpan mem buffer format args = putText mem buffer (printfText format args) := rfl

/-! ## The printf model: texts of the formats used, and no terminator inside a text -/

theorem cString_eq_self (s : List Nat) (h : ∀ b ∈ s, b ≠ 0) : cString s = s := by
  unfold cString
  rw [List.takeWhile_eq_self_iff]
  intro b hb
  simpa using h b hb

theorem printfText_title (text : List Nat) :
    printfText (cstr "%s: runtime assert: ") [Arg.str text] =
      cString text ++ cstr ": runtime assert: " := rfl

theorem printfText_title_none :
    printfText (cstr "runtime assert: ") [] = cstr "runtime assert: " := by decide

theorem cString_ne_zero (s : List Nat) : ∀ b ∈ cString s, b ≠ 0 := by
  intro b hb
  have := List.mem_takeWhile_imp hb
  simpa using this

theorem decDigits_ne_zero (fuel n : Nat) : ∀ b ∈ decDigits fuel n, b ≠ 0 := by
  induction fuel generalizing n with
  | zero => intro b hb; simp [decDigits] at hb
  | succ fuel ih =>
    intro b hb
    rw [decDigits] at hb
    split at hb
    · simp only [List.mem_singleton] at hb; omega
    · rw [List.mem_append] at hb
      rcases hb with hb | hb
      · exact ih _ b hb
      · simp only [List.mem_singleton] at hb; omega

theorem hexDigits_ne_zero (fuel n : Nat) : ∀ b ∈ hexDigits fuel n, b ≠ 0 := by
  induction fuel generalizing n with
  | zero => intro b hb; simp [hexDigits] at hb
  | succ fuel ih =>
    intro b hb
    rw [hexDigits] at hb
    split at hb
    · simp only [List.mem_singleton, hexDigit] at hb; split at hb <;> omega
    · rw [List.mem_append] at hb
      rcases hb with hb | hb
      · exact ih _ b hb
      · simp only [List.mem_singleton, hexDigit] at hb; split at hb <;> omega

/-- The fuel `formatInt` gives is enough: the digits denote the number. -/
theorem decDigits_value (fuel n : Nat) (h : n < fuel) : decValue (decDigits fuel n) = n := by
  induction fuel generalizing n with
  | zero => omega
  | succ fuel ih =>
    rw [decDigits]
    split
    · simp [decValue]
    · have h1 := ih (n / 10) (by omega)
      unfold decValue at h1 ⊢
      rw [List.foldl_append, h1]
      simp only [List.foldl_cons, List.foldl_nil]
      omega

theorem formatInt_ne_zero (v : Int) : ∀ b ∈ formatInt v, b ≠ 0 := by
  intro b hb
  unfold formatInt at hb
  split at hb
  · rw [List.mem_cons] at hb
    rcases hb with hb | hb
    · omega
    · exact decDigits_ne_zero _ _ b hb
  · exact decDigits_ne_zero _ _ b hb

theorem formatPtr_ne_zero (p : Nat) : ∀ b ∈ formatPtr p, b ≠ 0 := by
  intro b hb
  unfold formatPtr at hb
  split at hb
  · revert b; decide
  · rw [List.mem_append] at hb
    rcases hb with hb | hb
    · revert b; decide
    · exact hexDigits_ne_zero _ _ b hb

theorem printfConversion_ne_zero (c : Nat) (args : List Arg) :
    ∀ b ∈ (printfConversion c args).1, b ≠ 0 := by
  intro b hb
  unfold printfConversion at hb
  split at hb
  · exact cString_ne_zero _ b hb
  · exact formatInt_ne_zero _ b hb
  · exact formatPtr_ne_zero _ b hb
  · simp at hb

theorem printfGo_ne_zero (format : List Nat) :
    ∀ (flag : Bool) (args : List Arg), ∀ b ∈ printfGo flag format args, b ≠ 0 := by
  induction format with
  | nil => intro flag args b hb; cases flag <;> simp [printfGo] at hb
  | cons c rest ih =>
    intro flag args b hb
    cases flag with
    | false =>
      rw [printfGo] at hb
      split at hb
      · simp at hb
      · split at hb
        · exact ih _ _ b hb
        · rw [List.mem_cons] at hb
          rcases hb with hb | hb
          · omega
          · exact ih _ _ b hb
    | true =>
      rw [printfGo] at hb
      split at hb
      · simp at hb
      · split at hb
        · rw [List.mem_cons] at hb
          rcases hb with hb | hb
          · omega
          · exact ih _ _ b hb
        · rw [List.mem_append] at hb
          rcases hb with hb | hb
          · exact printfConversion_ne_zero _ _ b hb
          · exact ih _ _ b hb

theorem printfText_ne_zero (format : List Nat) (args : List Arg) :
    ∀ b ∈ printfText format args, b ≠ 0 :=
  printfGo_ne_zero format false args

theorem printfText_line_column (s f : List Nat) (l c : Int) :
    printfText (cstr "%s (%s:%d:%d)") [Arg.str s, Arg.str f, Arg.int l, Arg.int c] =
      cString s ++ cstr " (" ++ cString f ++ cstr ":" ++ formatInt l ++ cstr ":" ++ formatInt c
        ++ cstr ")" := by
  simp only [List.append_assoc]
  rfl

theorem printfText_line_unknown (s f : List Nat) :
    printfText (cstr "%s (%s:<unknown>)") [Arg.str s, Arg.str f] =
      cString s ++ cstr " (" ++ cString f ++ cstr ":<unknown>)" := by
  simp only [List.append_assoc]
  rfl

theorem printfText_symbol_address (s : List Nat) (p : Nat) :
    printfText (cstr "%s (%p)") [Arg.str s, Arg.ptr p] =
      cString s ++ cstr " (" ++ formatPtr p ++ cstr ")" := by
  simp only [List.append_assoc]
  rfl

theorem cString_cString (s : List Nat) : cString (cString s) = cString s :=
  cString_eq_self _ (cString_ne_zero s)

theorem printfText_two_strings (s t : List Nat) :
    printfText (cstr "%s%s") [Arg.str s, Arg.str t] = cString s ++ cString t := by
  show cString s ++ (cString t ++ []) = _
  rw [List.append_nil]

/-! ## Reading a line buffer back as a C string -/

theorem loadBytes_add (mem : Memory) (p a b : Nat) :
    loadBytes mem p (a + b) = loadBytes mem p a ++ loadBytes mem (p + a) b := by
  simp only [loadBytes, List.range_add, List.map_append, List.map_map]
  congr 1
  apply List.map_congr_left
  intro i _
  simp [Nat.add_assoc]

theorem loadBytes_split (mem : Memory) (p n c : Nat) (h : n < c) :
    loadBytes mem p c = loadBytes mem p n ++ mem (p + n) :: loadBytes mem (p + n + 1) (c - n - 1) := by
  have h1 : c = n + (1 + (c - n - 1)) := by omega
  conv_lhs => rw [h1]
  rw [loadBytes_add, loadBytes_add]
  have h2 : loadBytes mem (p + n) 1 = [mem (p + n)] := by
    simp [loadBytes, List.range_succ]
  rw [h2]
  rfl

theorem cString_append_zero (text rest : List Nat) (h : ∀ b ∈ text, b ≠ 0) :
    cString (text ++ 0 :: rest) = text := by
  unfold cString
  rw [List.takeWhile_append_of_pos (by intro b hb; simpa using h b hb)]
  simp

theorem take_min_length (text : List Nat) (m : Nat) :
    text.take (min text.length m) = text.take m := by
  by_cases h : text.length ≤ m
  · rw [Nat.min_eq_left h, List.take_of_length_le (le_refl _), List.take_of_length_le h]
  · rw [Nat.min_eq_right (by omega)]

/-- The C string read back from a view after a write: the text cut to the capacity less
one, for a text without a terminator inside. -/
theorem loadCStr_putText (mem : Memory) (p c : Nat) (text : List Nat) (hc : c ≠ 0)
    (h : ∀ b ∈ text, b ≠ 0) :
    loadCStr (putText mem ⟨p, c⟩ text).1 p c = text.take (c - 1) := by
  have h1 := putText_load mem ⟨p, c⟩ text hc
  have h2 := putText_mem mem ⟨p, c⟩ text hc (p + min text.length (c - 1))
  simp only [if_true] at h1 h2
  unfold loadCStr
  rw [loadBytes_split _ p (min text.length (c - 1)) c (by omega), h1, h2, take_min_length]
  exact cString_append_zero _ _ (fun b hb => h b (List.mem_of_mem_take hb))

theorem loadCStr_FormatToSpan (mem : Memory) (c : Nat) (format : List Nat) (args : List Arg)
    (hc : c ≠ 0) :
    loadCStr (FormatToSpan mem ⟨0, c⟩ format args).1 0 c = (printfText format args).take (c - 1) := by
  rw [FormatToSpan_eq]
  exact loadCStr_putText mem 0 c _ hc (printfText_ne_zero format args)

/-! ## Format.h: contract, frame and composition -/

/-- The model of `FormatToSpan` meets the expectations of every single-call test of
`FormatTest.cpp`: the three formats on the whole array and on its first 0, 1, 2, 3 and 4
bytes. -/
theorem FormatTest_expectations :
    formatTestRun 5 "ab" [] = ([97, 98, 0, 1, 1], ⟨2, 3⟩)
    ∧ formatTestRun 5 "%s" [Arg.str (cstr "ab")] = ([97, 98, 0, 1, 1], ⟨2, 3⟩)
    ∧ formatTestRun 5 "%d" [Arg.int 42] = ([52, 50, 0, 1, 1], ⟨2, 3⟩)
    ∧ formatTestRun 0 "ab" [] = ([1, 1, 1, 1, 1], ⟨0, 0⟩)
    ∧ formatTestRun 0 "%s" [Arg.str (cstr "ab")] = ([1, 1, 1, 1, 1], ⟨0, 0⟩)
    ∧ formatTestRun 0 "%d" [Arg.int 42] = ([1, 1, 1, 1, 1], ⟨0, 0⟩)
    ∧ formatTestRun 1 "ab" [] = ([0, 1, 1, 1, 1], ⟨0, 1⟩)
    ∧ formatTestRun 1 "%s" [Arg.str (cstr "ab")] = ([0, 1, 1, 1, 1], ⟨0, 1⟩)
    ∧ formatTestRun 1 "%d" [Arg.int 42] = ([0, 1, 1, 1, 1], ⟨0, 1⟩)
    ∧ formatTestRun 2 "ab" [] = ([97, 0, 1, 1, 1], ⟨1, 1⟩)
    ∧ formatTestRun 2 "%s" [Arg.str (cstr "ab")] = ([97, 0, 1, 1, 1], ⟨1, 1⟩)
    ∧ formatTestRun 2 "%d" [Arg.int 42] = ([52, 0, 1, 1, 1], ⟨1, 1⟩)
    ∧ formatTestRun 3 "ab" [] = ([97, 98, 0, 1, 1], ⟨2, 1⟩)
    ∧ formatTestRun 3 "%s" [Arg.str (cstr "ab")] = ([97, 98, 0, 1, 1], ⟨2, 1⟩)
    ∧ formatTestRun 3 "%d" [Arg.int 42] = ([52, 50, 0, 1, 1], ⟨2, 1⟩)
    ∧ formatTestRun 4 "ab" [] = ([97, 98, 0, 1, 1], ⟨2, 2⟩)
    ∧ formatTestRun 4 "%s" [Arg.str (cstr "ab")] = ([97, 98, 0, 1, 1], ⟨2, 2⟩)
    ∧ formatTestRun 4 "%d" [Arg.int 42] = ([52, 50, 0, 1, 1], ⟨2, 2⟩) := by
  decide

/-- C1: for a view of capacity `c` and a format call with formatted text `t`, put
`n = min(|t|, c - 1)`. With `c ≥ 1`, `FormatToSpan` (and `VFormatToSpan`, which agrees with it)
leaves the first `n` bytes of the view equal to the first `n` bytes of `t`, sets the byte at
offset `n` to the terminator and returns the view (pointer + `n`, `c - n`); with `c = 0` it
stores nothing and returns the view unchanged. So the number of content bytes is
`min(|t|, max(c - 1, 0))`, the byte at offset `n` is the terminator whatever the memory was
exactly when `c ≥ 1`, the capacity returned is `c` minus the content bytes, and `c = 1` stores
only the terminator and returns the view unchanged. -/
theorem FormatToSpan_contract (mem : Memory) (buffer : Span) (format : List Nat)
    (args : List Arg) :
    let t := printfText format args
    let n := min t.length (buffer.size - 1)
    let r := FormatToSpan mem buffer format args
    VFormatToSpan mem buffer format args = r
    ∧ (1 ≤ buffer.size →
        loadBytes r.1 buffer.data n = t.take n ∧ r.1 (buffer.data + n) = 0 ∧
        r.2 = ⟨buffer.data + n, buffer.size - n⟩)
    ∧ (buffer.size = 0 → r = (mem, buffer))
    ∧ ((r.2.data - buffer.data : Nat) : Int)
        = min (t.length : Int) (max ((buffer.size : Int) - 1) 0)
    ∧ ((∀ m : Memory, (FormatToSpan m buffer format args).1 (buffer.data + n) = 0)
        ↔ 1 ≤ buffer.size)
    ∧ r.2.size = buffer.size - (r.2.data - buffer.data)
    ∧ (buffer.size = 1 → r.2 = buffer ∧ r.1 buffer.data = 0) := by
  intro t n r
  have hr : r = putText mem buffer t := rfl
  refine ⟨rfl, ?_, ?_, ?_, ?_, ?_, ?_⟩
  · intro h
    have h0 : buffer.size ≠ 0 := by omega
    refine ⟨?_, ?_, ?_⟩
    · rw [hr]; exact putText_load mem buffer t h0
    · rw [hr, putText_mem mem buffer t h0, if_pos rfl]
    · rw [hr]; exact putText_span mem buffer t h0
  · intro h
    rw [hr]; exact putText_zero mem buffer t h
  · by_cases h : buffer.size = 0
    · rw [hr, putText_zero mem buffer t h]
      simp only [Nat.sub_self, Nat.cast_zero]
      omega
    · rw [hr, putText_span mem buffer t h]
      simp only
      omega
  · constructor
    · intro h
      by_contra hc
      have h0 : buffer.size = 0 := by omega
      have h1 := h (fun _ => 1)
      rw [FormatToSpan_eq, putText_zero _ buffer _ h0] at h1
      simp at h1
    · intro h m
      have h0 : buffer.size ≠ 0 := by omega
      rw [FormatToSpan_eq, putText_mem m buffer _ h0, if_pos rfl]
  · by_cases h : buffer.size = 0
    · rw [hr, putText_zero mem buffer t h]
      simp only [Nat.sub_self]
      omega
    · rw [hr, putText_span mem buffer t h]
      simp only
      omega
  · intro h
    have h0 : buffer.size ≠ 0 := by omega
    have hn : min t.length (buffer.size - 1) = 0 := by omega
    constructor
    · rw [hr, putText_span mem buffer t h0, hn]
      rfl
    · rw [hr, putText_mem mem buffer t h0, hn, if_pos (Nat.add_zero _).symm]

/-- C3: the only bytes `FormatToSpan` may change are the `n = min(|t|, c - 1)` content bytes at
the start of the view and the terminator byte right after them; every other byte of memory,
inside or outside the view, keeps its value. With capacity 0 the memory and the view are
returned as they were. In the scenario of the tests, `"%d"` with 42 into the first 3 bytes of
the 5 sentinel bytes gives `['4','2',0]`, leaves the last 2 bytes untouched and returns the
view at offset 2 with capacity 1. -/
theorem FormatToSpan_frame (mem : Memory) (buffer : Span) (format : List Nat)
    (args : List Arg) :
    let n := min (printfText format args).length (buffer.size - 1)
    let r := FormatToSpan mem buffer format args
    (∀ a, ¬ (buffer.data ≤ a ∧ a ≤ buffer.data + n) → r.1 a = mem a)
    ∧ (buffer.size = 0 → r.1 = mem ∧ r.2 = buffer)
    ∧ (loadBytes (FormatToSpan sentinelBuffer (Span.first ⟨0, 5⟩ 3) (cstr "%d") [Arg.int 42]).1
          0 5 = [52, 50, 0, 1, 1]
        ∧ (FormatToSpan sentinelBuffer (Span.first ⟨0, 5⟩ 3) (cstr "%d") [Arg.int 42]).2
          = ⟨2, 1⟩) := by
  intro n r
  have hr : r = putText mem buffer (printfText format args) := rfl
  refine ⟨?_, ?_, by decide, by decide⟩
  · intro a ha
    by_cases h : buffer.size = 0
    · rw [hr, putText_zero mem buffer _ h]
    · rw [hr, putText_mem mem buffer _ h, if_neg (by omega), if_neg (by omega)]
  · intro h
    rw [hr, putText_zero mem buffer _ h]
    exact ⟨rfl, rfl⟩

/-- C2: sequential composition. Calling `FormatToSpan` with a first format call and then, on
the view returned, with a second one leaves the memory and the view finally returned
identical to one `FormatToSpan` call on the original view whose formatted text is the
concatenation of the two texts, and such a call always exists (`"%s%s"` with the two texts);
with capacity at least 1 a terminator stands at the pointer
of the final view, right after the last content byte, and the final capacity is at least 1.
In the scenario of the tests, `"a"`, then `"%s"` with `"b"`, then `"%d"` with 4 onto the 5
sentinel bytes gives `['a','b','4',0,sentinel]` and the view at offset 3 with capacity 2. -/
theorem FormatToSpan_sequence (mem : Memory) (buffer : Span) (f1 : List Nat) (a1 : List Arg)
    (f2 : List Nat) (a2 : List Arg) (f : List Nat) (a : List Arg)
    (hcat : printfText f a = printfText f1 a1 ++ printfText f2 a2) :
    let r1 := FormatToSpan mem buffer f1 a1
    let r2 := FormatToSpan r1.1 r1.2 f2 a2
    r2 = FormatToSpan mem buffer f a
    ∧ r2 = FormatToSpan mem buffer (cstr "%s%s")
        [Arg.str (printfText f1 a1), Arg.str (printfText f2 a2)]
    ∧ (1 ≤ buffer.size → r2.1 r2.2.data = 0 ∧ 1 ≤ r2.2.size)
    ∧ (let s1 := FormatToSpan sentinelBuffer ⟨0, 5⟩ (cstr "a") []
       let s2 := FormatToSpan s1.1 s1.2 (cstr "%s") [Arg.str (cstr "b")]
       let s3 := FormatToSpan s2.1 s2.2 (cstr "%d") [Arg.int 4]
       loadBytes s3.1 0 5 = [97, 98, 52, 0, 1] ∧ s3.2 = ⟨3, 2⟩) := by
  intro r1 r2
  have h12 : r2 = putText mem buffer (printfText f1 a1 ++ printfText f2 a2) := by
    show putText (putText mem buffer (printfText f1 a1)).1 (putText mem buffer (printfText f1 a1)).2
      (printfText f2 a2) = _
    exact putText_append mem buffer _ _
  refine ⟨?_, ?_, ?_, by decide, by decide⟩
  · rw [h12, FormatToSpan_eq, hcat]
  · rw [h12, FormatToSpan_eq, printfText_two_strings,
      cString_eq_self _ (printfText_ne_zero f1 a1), cString_eq_self _ (printfText_ne_zero f2 a2)]
  · intro h
    have h0 : buffer.size ≠ 0 := by omega
    rw [h12, putText_span mem buffer _ h0, putText_mem mem buffer _ h0]
    simp only [if_pos]
    constructor
    · trivial
    · omega

/-- Witness for C2: the first two calls of the test `FormatToSpan_Sequence` against the single
call with `"ab"`. -/
theorem FormatToSpan_sequence_witness :
    printfText (cstr "ab") [] = printfText (cstr "a") [] ++ printfText (cstr "%s") [Arg.str (cstr "b")]
    ∧ FormatToSpan (FormatToSpan sentinelBuffer ⟨0, 5⟩ (cstr "a") []).1
        (FormatToSpan sentinelBuffer ⟨0, 5⟩ (cstr "a") []).2 (cstr "%s") [Arg.str (cstr "b")]
      = FormatToSpan sentinelBuffer ⟨0, 5⟩ (cstr "ab") [] :=
  ⟨by decide,
    (FormatToSpan_sequence sentinelBuffer ⟨0, 5⟩ (cstr "a") [] (cstr "%s") [Arg.str (cstr "b")]
      (cstr "ab") [] (by decide)).1⟩

/-! ## KAssert.cpp: what reaches the error console -/

/-- The bytes before the returned view of a write into an array at address 0 are the text cut
to the capacity less one. -/
theorem putText_written (mem : Memory) (c : Nat) (text : List Nat) (h : c ≠ 0) :
    loadBytes (putText mem ⟨0, c⟩ text).1 0 (c - (putText mem ⟨0, c⟩ text).2.size) =
      text.take (c - 1) := by
  have h1 := putText_load mem ⟨0, c⟩ text h
  have h2 := putText_span mem ⟨0, c⟩ text h
  simp only at h1 h2
  have h3 : c - (putText mem ⟨0, c⟩ text).2.size = min text.length (c - 1) := by
    rw [h2]; simp only; omega
  rw [h3, h1]
  by_cases h4 : text.length ≤ c - 1
  · rw [Nat.min_eq_left h4, List.take_of_length_le (le_refl _), List.take_of_length_le h4]
  · rw [Nat.min_eq_right (by omega)]

/-- C8: for every location (possibly null) and every formatted message, `PrintAssert` returns
after appending to the error console exactly the first `min(|T|, 1023)` bytes of the text
`T`, then a newline, where `T` is the location followed by `": runtime assert: "` and the
message when a location is supplied and `"runtime assert: "` followed by the message when it
is not. `RuntimeAssertFailedLog` does the same, and `RuntimeAssertFailedPanic` reaches
`konan::abort()` with the same console content. The length passed to the console, 1024 less
the capacity left, is `min(|T|, 1023)`. -/
theorem PrintAssert_console (env : Env) (garbage : Memory) (callStack : List Frame)
    (th : Thread) (location : Option (List Nat)) (format : List Nat) (args : List Arg) :
    let T := assertText location format args
    let after : Thread := { th with stderr := th.stderr ++ T.take 1023 ++ [10] }
    PrintAssert env garbage callStack th location format args = Run.done after
    ∧ RuntimeAssertFailedLog env garbage callStack th location format args = Run.done after
    ∧ RuntimeAssertFailedPanic env garbage callStack th location format args = Run.abort after
    ∧ (T.take 1023).length = min T.length 1023
    ∧ 1024 - (putText garbage ⟨0, 1024⟩ T).2.size = min T.length 1023
    ∧ (∀ text, (∀ b ∈ text, b ≠ 0) →
        assertText (some text) format args
          = text ++ cstr ": runtime assert: " ++ printfText format args) := by
  intro T after
  have key : PrintAssert env garbage callStack th location format args = Run.done after := by
    have hmsg : ∀ title : List Nat,
        VFormatToSpan (putText garbage ⟨0, 1024⟩ title).1 (putText garbage ⟨0, 1024⟩ title).2
          format args = putText garbage ⟨0, 1024⟩ (title ++ printfText format args) := by
      intro title
      rw [VFormatToSpan_eq]
      exact putText_append garbage ⟨0, 1024⟩ title _
    cases location with
    | some text =>
      simp only [PrintAssert, FormatToSpan_eq, printfText_title, hmsg, kEnableStacktraces,
        Bool.false_eq_true, if_false, consoleErrorf, consoleErrorUtf8]
      rw [putText_written garbage 1024 _ (by decide)]
      rfl
    | none =>
      simp only [PrintAssert, FormatToSpan_eq, printfText_title_none, hmsg, kEnableStacktraces,
        Bool.false_eq_true, if_false, consoleErrorf, consoleErrorUtf8]
      rw [putText_written garbage 1024 _ (by decide)]
      rfl
  refine ⟨key, key, ?_, ?_, ?_, ?_⟩
  · simp only [RuntimeAssertFailedPanic, key]
  · simp [List.length_take, Nat.min_comm]
  · rw [putText_span garbage ⟨0, 1024⟩ T (by decide)]
    simp only
    omega
  · intro text h
    simp only [assertText, cString_eq_self text h]

/-! ## SourceInfo.cpp: the bounded result array -/

/-- The entry `process_line` stores for a line record. -/
theorem process_line_fst (data : callback_arg_t) (line : LineRecord) :
    (process_line data line).1 =
      if data.result_ptr < data.result_size then
        { data with
          result := fun i => if i = data.result_ptr then
            { fileName := line.filename.map strdup, lineNumber := line.lineno, column := -1,
              needFreeFileName := true } else data.result i
          result_ptr := data.result_ptr + 1 }
      else data := rfl

/-- The state of the callback record after the delivered records, from any state with
`0 ≤ result_ptr`: the counter, the size, and the array entry by entry. -/
theorem backtrace_pcinfo_process_line (delivered : List LineRecord) (data : callback_arg_t)
    (h0 : 0 ≤ data.result_ptr) :
    let out := backtrace_pcinfo delivered process_line data
    out.result_size = data.result_size
    ∧ out.result_ptr =
        max data.result_ptr (min (data.result_ptr + delivered.length) data.result_size)
    ∧ (∀ i : Int, (i < data.result_ptr ∨ out.result_ptr ≤ i) → out.result i = data.result i)
    ∧ (∀ j (hj : j < delivered.length), data.result_ptr + (j : Int) < data.result_size →
        out.result (data.result_ptr + j) =
          { fileName := delivered[j].filename.map strdup, lineNumber := delivered[j].lineno,
            column := -1, needFreeFileName := true }) := by
  induction delivered generalizing data with
  | nil =>
    refine ⟨rfl, ?_, fun _ _ => rfl, ?_⟩
    · show data.result_ptr = _
      simp only [List.length_nil, Nat.cast_zero, add_zero]
      omega
    · intro j hj
      exact absurd hj (by simp)
  | cons line rest ih =>
    have hstep : backtrace_pcinfo (line :: rest) process_line data =
        backtrace_pcinfo rest process_line (process_line data line).1 := rfl
    rw [hstep]
    by_cases hlt : data.result_ptr < data.result_size
    · have h1 : (process_line data line).1 =
          { data with
            result := fun i => if i = data.result_ptr then
              { fileName := line.filename.map strdup, lineNumber := line.lineno, column := -1,
                needFreeFileName := true } else data.result i
            result_ptr := data.result_ptr + 1 } := by
        rw [process_line_fst, if_pos hlt]
      rw [h1]
      have ih1 := ih { data with
            result := fun i => if i = data.result_ptr then
              { fileName := line.filename.map strdup, lineNumber := line.lineno, column := -1,
                needFreeFileName := true } else data.result i
            result_ptr := data.result_ptr + 1 } (by show 0 ≤ data.result_ptr + 1; omega)
      dsimp only at ih1
      obtain ⟨e1, e2, e3, e4⟩ := ih1
      simp only [List.length_cons, Nat.cast_add, Nat.cast_one]
      refine ⟨e1, ?_, ?_, ?_⟩
      · rw [e2]; omega
      · intro i hi
        rw [e3 i (by rw [e2] at hi ⊢; omega), if_neg (by rw [e2] at hi; omega)]
      · intro j hj hlt2
        cases j with
        | zero =>
          simp only [Nat.cast_zero, add_zero, List.getElem_cons_zero]
          rw [e3 _ (Or.inl (by omega)), if_pos rfl]
        | succ j =>
          have hj2 : j < rest.length := by omega
          have e5 := e4 j hj2 (by push_cast at hlt2; omega)
          simp only [List.getElem_cons_succ]
          have e6 : data.result_ptr + ((j + 1 : Nat) : Int) = data.result_ptr + 1 + (j : Int) := by
            push_cast; ring
          rw [e6, e5]
    · have h1 : (process_line data line).1 = data := by
        rw [process_line_fst, if_neg hlt]
      rw [h1]
      obtain ⟨e1, e2, e3, e4⟩ := ih data h0
      simp only [List.length_cons, Nat.cast_add, Nat.cast_one]
      refine ⟨e1, ?_, e3, ?_⟩
      · rw [e2]; omega
      · intro j hj hlt2
        omega

/-- C10: for every `result_size` and every sequence of `k` line records delivered to
`process_line` (the state being available), `Kotlin_getSourceInfo` returns
`min(k, max(result_size, 0))`; it leaves every entry outside `0 .. min(k, max(result_size, 0)) - 1`
as it was, in particular every index at or above `result_size`; entry `j` below that bound
gets the file name (copied) and line of the `j`-th record, column `-1` and
`needFreeFileName`; the callback returns nonzero exactly when the counter it leaves equals
`result_size`; and without a state the function returns 0 and leaves the array as it was. -/
theorem Kotlin_getSourceInfo_bounds (delivered : List LineRecord) (result : Int → SourceInfo)
    (result_size : Int) :
    let filled : Int := min (delivered.length : Int) (max result_size 0)
    let r := Kotlin_getSourceInfo true delivered result result_size
    r.2 = filled
    ∧ (∀ i : Int, (i < 0 ∨ filled ≤ i) → r.1 i = result i)
    ∧ (∀ i : Int, result_size ≤ i → r.1 i = result i)
    ∧ (∀ j (hj : j < delivered.length), (j : Int) < filled →
        r.1 j = { fileName := delivered[j].filename.map strdup, lineNumber := delivered[j].lineno,
                  column := -1, needFreeFileName := true })
    ∧ (∀ (data : callback_arg_t) (line : LineRecord),
        ((process_line data line).2 ≠ 0 ↔
          (process_line data line).1.result_ptr = data.result_size)
        ∧ (process_line data line).1.result_size = data.result_size)
    ∧ Kotlin_getSourceInfo false delivered result result_size = (result, 0) := by
  intro filled r
  have hmain := backtrace_pcinfo_process_line delivered
    { result := result, result_ptr := 0, result_size := result_size } (le_refl _)
  simp only [zero_add] at hmain
  obtain ⟨_, e2, e3, e4⟩ := hmain
  have hr2 : r.2 = filled := by
    show (backtrace_pcinfo delivered process_line
      { result := result, result_ptr := 0, result_size := result_size }).result_ptr = filled
    rw [e2]
    show _ = min (delivered.length : Int) (max result_size 0)
    omega
  have hfilled : filled = min (delivered.length : Int) (max result_size 0) := rfl
  refine ⟨hr2, ?_, ?_, ?_, ?_, rfl⟩
  · intro i hi
    exact e3 i (by rw [e2]; omega)
  · intro i hi
    exact e3 i (by rw [e2]; omega)
  · intro j hj hlt
    exact e4 j hj (by omega)
  · intro data line
    constructor
    · have hsz : (process_line data line).1.result_size = data.result_size := by
        rw [process_line_fst]; split <;> rfl
      show ((if (process_line data line).1.result_ptr = (process_line data line).1.result_size
        then (1 : Int) else 0) ≠ 0 ↔ _)
      rw [hsz]
      by_cases hc : (process_line data line).1.result_ptr = data.result_size
      · simp [hc]
      · simp [hc]
    · rw [process_line_fst]; split <;> rfl

/-! ## StackTrace.cpp: the strings of a trace -/

theorem libcLine_eq (garbage : Memory) (symbol : List Nat) (sourceInfo : SourceInfo) :
    libcLine garbage symbol sourceInfo =
      match sourceInfo.fileName with
      | some fileName =>
        (sourceInfoText symbol fileName sourceInfo.lineNumber sourceInfo.column).take 1023
      | none => cString symbol := by
  unfold libcLine sourceInfoText
  cases sourceInfo.fileName with
  | none => rfl
  | some fileName =>
    by_cases hl : sourceInfo.lineNumber = -1
    · simp only [hl, bne_self_eq_false, Bool.false_eq_true, if_false, ne_eq, not_true_eq_false]
      rw [loadCStr_FormatToSpan garbage 1024 _ _ (by decide), printfText_line_unknown]
    · have hb : (sourceInfo.lineNumber != -1) = true := by simpa using hl
      simp only [hb, if_true, ne_eq, hl, not_false_eq_true]
      rw [loadCStr_FormatToSpan garbage 1024 _ _ (by decide), printfText_line_column]

theorem unwindLine_eq (env : Env) (garbage : Memory) (address : Nat) :
    unwindLine env garbage address = (unwindText env address).take 511 := by
  unfold unwindLine unwindText
  simp only
  rw [loadCStr_FormatToSpan garbage 512 _ _ (by decide), printfText_symbol_address]
  cases env.AddressToSymbol address with
  | none => rfl
  | some name => simp only [cString_cString]

theorem getSourceInfo_fst (env : Env) (th : Thread) (address : Nat) :
    (getSourceInfo env th address).1 = sourceInfoOf env th.disallowSourceInfo address := by
  unfold getSourceInfo sourceInfoOf
  split <;> rfl

theorem getSourceInfo_snd (env : Env) (th : Thread) (address : Nat) :
    (getSourceInfo env th address).2 = afterLookups th [address] := by
  unfold getSourceInfo afterLookups
  split <;> rfl

theorem afterLookups_flag (th : Thread) (addresses : List Nat) :
    (afterLookups th addresses).disallowSourceInfo = th.disallowSourceInfo := by
  unfold afterLookups
  split <;> rfl

theorem afterLookups_stderr (th : Thread) (addresses : List Nat) :
    (afterLookups th addresses).stderr = th.stderr := by
  unfold afterLookups
  split <;> rfl

theorem afterLookups_append (th : Thread) (xs ys : List Nat) :
    afterLookups (afterLookups th xs) ys = afterLookups th (xs ++ ys) := by
  unfold afterLookups
  by_cases h : th.disallowSourceInfo = true
  · simp [h]
  · simp [h]

theorem afterLookups_of_flag (th : Thread) (addresses : List Nat)
    (h : th.disallowSourceInfo = true) : afterLookups th addresses = th := by
  simp [afterLookups, h]

theorem libcLine_render (env : Env) (garbage : Memory) (disallow : Bool) (address : Nat)
    (hb : env.backend = Backend.LibcBacktrace) :
    libcLine garbage (env.osSymbol address) (sourceInfoOf env disallow address) =
      renderAddress env disallow address := by
  rw [libcLine_eq]
  unfold renderAddress
  rw [hb]

/-- The loop of the `backtrace_symbols` branch returns one string for each address left, in
order, when `symbols` holds the OS symbol of every address of the trace. -/
theorem libcLoop_eq (env : Env) (garbage : Memory) (hb : env.backend = Backend.LibcBacktrace)
    (rest : List Nat) :
    ∀ (pre : List Nat) (th : Thread) (strings : List (List Nat)),
      libcLoop env garbage ((pre ++ rest).map env.osSymbol) rest pre.length th strings =
        Run.done (strings ++ rest.map (renderAddress env th.disallowSourceInfo),
          afterLookups th rest) := by
  induction rest with
  | nil =>
    intro pre th strings
    simp [libcLoop, afterLookups]
  | cons address rest ih =>
    intro pre th strings
    have hget : ((pre ++ address :: rest).map env.osSymbol).get? pre.length =
        some (env.osSymbol address) := by
      rw [List.get?_eq_getElem?, List.map_append, List.getElem?_append_right (by simp)]
      simp
    have hpre : pre ++ address :: rest = (pre ++ [address]) ++ rest := by simp
    rw [libcLoop, hget]
    simp only
    rw [getSourceInfo_fst, getSourceInfo_snd, libcLine_render env garbage _ _ hb, hpre]
    have hlen : pre.length + 1 = (pre ++ [address]).length := by simp
    rw [hlen, ih (pre ++ [address]), afterLookups_flag, afterLookups_append]
    simp

theorem foldl_push_eq_map {α β : Type} (f : α → β) (l : List α) (init : List β) :
    l.foldl (fun acc a => acc ++ [f a]) init = init ++ l.map f := by
  induction l generalizing init with
  | nil => simp
  | cons a l ih => simp [ih]

theorem wrapInt32_of_range (z : Int) (h1 : -2147483648 ≤ z) (h2 : z < 2147483648) :
    wrapInt32 z = z := by
  unfold wrapInt32
  omega

/-- The strings of the unwind-table backend. -/
theorem GetStackTraceStrings_unwind (env : Env) (garbage : Memory) (th : Thread)
    (stackTrace : List Nat) (hb : env.backend = Backend.GccUnwind) :
    GetStackTraceStrings env garbage th stackTrace =
      Run.done (stackTrace.map (renderAddress env th.disallowSourceInfo), th) := by
  have hmap : stackTrace.map (fun address => unwindLine env garbage address) =
      stackTrace.map (renderAddress env th.disallowSourceInfo) := by
    apply List.map_congr_left
    intro a _
    rw [unwindLine_eq]
    unfold renderAddress
    rw [hb]
  unfold GetStackTraceStrings
  rw [hb]
  simp only [foldl_push_eq_map, List.nil_append]
  rw [hmap]

/-- The strings of the disabled backend. -/
theorem GetStackTraceStrings_disabled (env : Env) (garbage : Memory) (th : Thread)
    (stackTrace : List Nat) (hb : env.backend = Backend.NoBacktrace) :
    GetStackTraceStrings env garbage th stackTrace = Run.done ([cstr "<UNIMPLEMENTED>"], th) := by
  unfold GetStackTraceStrings
  rw [hb]

/-- The strings of the libc backend, when `backtrace_symbols` gets its memory and the size
fits an `int`. -/
theorem GetStackTraceStrings_libc (env : Env) (garbage : Memory) (th : Thread)
    (stackTrace : List Nat) (hb : env.backend = Backend.LibcBacktrace)
    (halloc : env.symbolsAllocated = true) (hsize : stackTrace.length < 2147483648) :
    GetStackTraceStrings env garbage th stackTrace =
      Run.done (stackTrace.map (renderAddress env th.disallowSourceInfo),
        afterLookups th stackTrace) := by
  unfold GetStackTraceStrings
  rw [hb]
  simp only
  by_cases h0 : stackTrace.length > 0
  · rw [if_pos h0]
    have hw : wrapInt32 (stackTrace.length : Int) = stackTrace.length :=
      wrapInt32_of_range _ (by omega) (by omega)
    simp only [backtrace_symbols, halloc, if_true, hw, Int.toNat_ofNat, List.take_length]
    have := libcLoop_eq env garbage hb stackTrace [] th []
    simpa using this
  · have hnil : stackTrace = [] := List.length_eq_zero.mp (by omega)
    subst hnil
    simp [afterLookups]

/-- Without memory for `backtrace_symbols` a non-empty trace ends in the failed check. -/
theorem GetStackTraceStrings_libc_abort (env : Env) (garbage : Memory) (th : Thread)
    (stackTrace : List Nat) (hb : env.backend = Backend.LibcBacktrace)
    (halloc : env.symbolsAllocated = false) (hne : stackTrace ≠ []) :
    GetStackTraceStrings env garbage th stackTrace = Run.abort th := by
  unfold GetStackTraceStrings
  rw [hb]
  have h0 : stackTrace.length > 0 := List.length_pos.mpr hne
  simp only [if_pos h0, backtrace_symbols, halloc, Bool.false_eq_true, if_false]

theorem getElem?_map_render (env : Env) (disallow : Bool) (stackTrace : List Nat) (i : Nat)
    (hi : i < stackTrace.length) :
    (stackTrace.map (renderAddress env disallow))[i]? =
      some (renderAddress env disallow stackTrace[i]) := by
  rw [List.getElem?_map, List.getElem?_eq_getElem hi]
  rfl

/-- C5, as the code has it: with the unwind-table backend, and with the libc backend when
`backtrace_symbols` gets its memory and the size fits an `int`, `GetStackTraceStrings` returns
exactly one string for each address of the trace, and the string at index `i` is the rendering
of the address at index `i`; with the disabled backend it returns the single string
`"<UNIMPLEMENTED>"` whatever the trace. -/
theorem GetStackTraceStrings_one_per_address (env : Env) (garbage : Memory) (th : Thread)
    (stackTrace : List Nat)
    (hlibc : env.backend = Backend.LibcBacktrace →
      env.symbolsAllocated = true ∧ stackTrace.length < 2147483648) :
    (env.backend ≠ Backend.NoBacktrace →
      ∃ strings th1, GetStackTraceStrings env garbage th stackTrace = Run.done (strings, th1)
        ∧ strings.length = stackTrace.length
        ∧ ∀ i (hi : i < stackTrace.length),
            strings[i]? = some (renderAddress env th.disallowSourceInfo stackTrace[i]))
    ∧ (env.backend = Backend.NoBacktrace →
      GetStackTraceStrings env garbage th stackTrace = Run.done ([cstr "<UNIMPLEMENTED>"], th)) := by
  constructor
  · intro hne
    cases hb : env.backend with
    | NoBacktrace => exact absurd hb hne
    | GccUnwind =>
      exact ⟨_, _, GetStackTraceStrings_unwind env garbage th stackTrace hb, by simp,
        fun i hi => getElem?_map_render env _ stackTrace i hi⟩
    | LibcBacktrace =>
      obtain ⟨halloc, hsize⟩ := hlibc hb
      exact ⟨_, _, GetStackTraceStrings_libc env garbage th stackTrace hb halloc hsize, by simp,
        fun i hi => getElem?_map_render env _ stackTrace i hi⟩
  · intro hb
    exact GetStackTraceStrings_disabled env garbage th stackTrace hb

/-- Witness for C5: the libc backend on a trace of two addresses. -/
theorem GetStackTraceStrings_one_per_address_witness :
    ((sampleEnv Backend.LibcBacktrace).backend = Backend.LibcBacktrace →
      (sampleEnv Backend.LibcBacktrace).symbolsAllocated = true
        ∧ ([7, 8] : List Nat).length < 2147483648)
    ∧ ((sampleEnv Backend.LibcBacktrace).backend ≠ Backend.NoBacktrace →
      ∃ strings th1,
        GetStackTraceStrings (sampleEnv Backend.LibcBacktrace) sentinelBuffer {} [7, 8]
          = Run.done (strings, th1)
        ∧ strings.length = ([7, 8] : List Nat).length
        ∧ ∀ i (hi : i < ([7, 8] : List Nat).length),
            strings[i]? = some (renderAddress (sampleEnv Backend.LibcBacktrace)
              ({} : Thread).disallowSourceInfo ([7, 8] : List Nat)[i])) :=
  ⟨fun _ => ⟨rfl, by decide⟩,
    (GetStackTraceStrings_one_per_address (sampleEnv Backend.LibcBacktrace) sentinelBuffer {}
      [7, 8] (fun _ => ⟨rfl, by decide⟩)).1⟩

/-- Counterexample to C5 as stated: with the disabled backend a trace of two addresses gives
one string. -/
theorem GetStackTraceStrings_disabled_counterexample :
    GetStackTraceStrings (sampleEnv Backend.NoBacktrace) sentinelBuffer {} [7, 8]
      = Run.done ([cstr "<UNIMPLEMENTED>"], {})
    ∧ ([cstr "<UNIMPLEMENTED>"] : List (List Nat)).length ≠ ([7, 8] : List Nat).length :=
  ⟨GetStackTraceStrings_disabled (sampleEnv Backend.NoBacktrace) sentinelBuffer {} [7, 8] rfl,
    by decide⟩

/-- C7, as the code has it: in the libc backend the string for an address with OS symbol `s`
and source info (file, line, column), as `getSourceInfo` returns it, is the first 1023 bytes
of `"s (file:line:column)"` when the file name is present and the line is not `-1`, the first
1023 bytes of `"s (file:<unknown>)"` when the file name is present and the line is `-1`, and
`s` itself when the file name is absent; a text of at most 1023 bytes is kept whole. The call
returns when `backtrace_symbols` gets its memory and the size fits an `int`. -/
theorem GetStackTraceStrings_libc_line (env : Env) (garbage : Memory) (th : Thread)
    (stackTrace : List Nat) (hb : env.backend = Backend.LibcBacktrace)
    (halloc : env.symbolsAllocated = true) (hsize : stackTrace.length < 2147483648) :
    ∃ strings th1, GetStackTraceStrings env garbage th stackTrace = Run.done (strings, th1)
      ∧ ∀ i (hi : i < stackTrace.length),
          let s := cString (env.osSymbol stackTrace[i])
          let info := (getSourceInfo env th stackTrace[i]).1
          ∃ line, strings[i]? = some line ∧
            (∀ file, info.fileName = some file → info.lineNumber ≠ -1 →
              line = (s ++ cstr " (" ++ cString file ++ cstr ":" ++ formatInt info.lineNumber
                ++ cstr ":" ++ formatInt info.column ++ cstr ")").take 1023
              ∧ ((s ++ cstr " (" ++ cString file ++ cstr ":" ++ formatInt info.lineNumber
                ++ cstr ":" ++ formatInt info.column ++ cstr ")").length ≤ 1023 →
                line = s ++ cstr " (" ++ cString file ++ cstr ":" ++ formatInt info.lineNumber
                  ++ cstr ":" ++ formatInt info.column ++ cstr ")"))
            ∧ (∀ file, info.fileName = some file → info.lineNumber = -1 →
              line = (s ++ cstr " (" ++ cString file ++ cstr ":<unknown>)").take 1023
              ∧ ((s ++ cstr " (" ++ cString file ++ cstr ":<unknown>)").length ≤ 1023 →
                line = s ++ cstr " (" ++ cString file ++ cstr ":<unknown>)"))
            ∧ (info.fileName = none → line = s) := by
  refine ⟨_, _, GetStackTraceStrings_libc env garbage th stackTrace hb halloc hsize, ?_⟩
  intro i hi s info
  have hrender : renderAddress env th.disallowSourceInfo stackTrace[i] =
      match info.fileName with
      | some fileName =>
        (sourceInfoText (env.osSymbol stackTrace[i]) fileName info.lineNumber info.column).take
          1023
      | none => s := by
    unfold renderAddress
    rw [hb]
    simp only
    rw [← getSourceInfo_fst env th stackTrace[i]]
  refine ⟨_, getElem?_map_render env _ stackTrace i hi, ?_, ?_, ?_⟩
  · intro file hfile hline
    have hr : renderAddress env th.disallowSourceInfo stackTrace[i] =
        (s ++ cstr " (" ++ cString file ++ cstr ":" ++ formatInt info.lineNumber
          ++ cstr ":" ++ formatInt info.column ++ cstr ")").take 1023 := by
      rw [hrender, hfile]
      simp only [sourceInfoText, ne_eq, if_pos hline]
    refine ⟨hr, fun hlen => ?_⟩
    rw [hr, List.take_of_length_le hlen]
  · intro file hfile hline
    have hr : renderAddress env th.disallowSourceInfo stackTrace[i] =
        (s ++ cstr " (" ++ cString file ++ cstr ":<unknown>)").take 1023 := by
      rw [hrender, hfile]
      simp only [sourceInfoText, ne_eq, if_neg (not_not.mpr hline)]
    refine ⟨hr, fun hlen => ?_⟩
    rw [hr, List.take_of_length_le hlen]
  · intro hfile
    rw [hrender, hfile]

/-- Witness for C7: the libc backend on a trace of two addresses, source info allowed; the
first string is `"sym (f.kt:7:3)"`. -/
theorem GetStackTraceStrings_libc_line_witness :
    ∃ strings th1,
      GetStackTraceStrings (sampleEnv Backend.LibcBacktrace) sentinelBuffer {} [7, 8]
        = Run.done (strings, th1)
      ∧ strings[0]? = some (cstr "sym (f.kt:7:3)") := by
  obtain ⟨strings, th1, hrun, hall⟩ :=
    GetStackTraceStrings_libc_line (sampleEnv Backend.LibcBacktrace) sentinelBuffer {} [7, 8]
      rfl rfl (by decide)
  obtain ⟨line, hline, hknown, _, _⟩ := hall 0 (by decide)
  refine ⟨strings, th1, hrun, ?_⟩
  rw [hline, (hknown (cstr "f.kt") rfl (by decide)).2 (by decide)]
  decide

/-- Counterexample to C7 as stated: an OS symbol of 1100 bytes with source info `f.kt`, line 7,
column 3; the string produced is not `"s (f.kt:7:3)"`. -/
theorem GetStackTraceStrings_libc_line_counterexample :
    ∃ line th1,
      GetStackTraceStrings longSymbolEnv sentinelBuffer {} [5] = Run.done ([line], th1)
      ∧ longSymbolEnv.Kotlin_getSourceInfo 5
          = { fileName := some (cstr "f.kt"), lineNumber := 7, column := 3 }
      ∧ line ≠ longSymbolEnv.osSymbol 5 ++ cstr " (f.kt:7:3)" := by
  refine ⟨_, _, GetStackTraceStrings_libc longSymbolEnv sentinelBuffer {} [5] rfl rfl (by decide),
    rfl, ?_⟩
  intro h
  have h1 : (renderAddress longSymbolEnv ({} : Thread).disallowSourceInfo 5).length ≤ 1023 := by
    show (List.take 1023 _).length ≤ 1023
    exact List.length_take_le _ _
  have h2 : (longSymbolEnv.osSymbol 5 ++ cstr " (f.kt:7:3)").length = 1111 := by
    show (List.replicate 1100 97 ++ cstr " (f.kt:7:3)").length = 1111
    rw [List.length_append, List.length_replicate]
    decide
  rw [h, h2] at h1
  omega

/-! ## StackTrace.cpp: the suppression flag -/

theorem libcLoop_thread (env : Env) (garbage : Memory) (symbols : List (List Nat))
    (rest : List Nat) :
    ∀ (index : Nat) (th : Thread) (strings : List (List Nat)) (r : List (List Nat) × Thread),
      libcLoop env garbage symbols rest index th strings = Run.done r →
        r.2 = afterLookups th rest := by
  induction rest with
  | nil =>
    intro index th strings r h
    simp only [libcLoop, Run.done.injEq] at h
    rw [← h]
    simp [afterLookups]
  | cons address rest ih =>
    intro index th strings r h
    rw [libcLoop] at h
    cases hget : symbols.get? index with
    | none =>
      rw [hget] at h
      exact absurd h (by simp)
    | some symbol =>
      rw [hget] at h
      have h1 := ih _ _ _ r h
      rw [h1, getSourceInfo_snd, afterLookups_append]
      rfl

/-- Whenever the loop of the `backtrace_symbols` branch returns, it returns one string for
each address left, in order; `symbols` holds the OS symbols of the first `k` addresses. -/
theorem libcLoop_done (env : Env) (garbage : Memory) (hb : env.backend = Backend.LibcBacktrace)
    (k : Nat) (rest : List Nat) :
    ∀ (pre : List Nat) (th : Thread) (strings : List (List Nat)) (r : List (List Nat) × Thread),
      libcLoop env garbage (((pre ++ rest).take k).map env.osSymbol) rest pre.length th strings
          = Run.done r →
        r = (strings ++ rest.map (renderAddress env th.disallowSourceInfo),
          afterLookups th rest) := by
  induction rest with
  | nil =>
    intro pre th strings r h
    simp only [libcLoop, Run.done.injEq] at h
    rw [← h]
    simp [afterLookups]
  | cons address rest ih =>
    intro pre th strings r h
    rw [libcLoop] at h
    cases hget : (((pre ++ address :: rest).take k).map env.osSymbol).get? pre.length with
    | none => rw [hget] at h; exact absurd h (by simp)
    | some symbol =>
      have hsym : symbol = env.osSymbol address := by
        rw [List.get?_eq_getElem?, List.getElem?_map, List.getElem?_take] at hget
        split at hget
        · rw [List.getElem?_append_right (le_refl _)] at hget
          simp at hget
          exact hget.symm
        · simp at hget
      rw [hget] at h
      simp only at h
      have hpre : pre ++ address :: rest = (pre ++ [address]) ++ rest := by simp
      have hlen : pre.length + 1 = (pre ++ [address]).length := by simp
      rw [hsym, getSourceInfo_fst, getSourceInfo_snd, libcLine_render env garbage _ _ hb, hpre,
        hlen] at h
      rw [ih (pre ++ [address]) _ _ r h, afterLookups_flag, afterLookups_append]
      simp

/-- Whenever the libc backend returns from `GetStackTraceStrings`, it returns one string for
each address, in order. -/
theorem GetStackTraceStrings_libc_done (env : Env) (garbage : Memory) (th : Thread)
    (stackTrace : List Nat) (hb : env.backend = Backend.LibcBacktrace)
    (r : List (List Nat) × Thread)
    (h : GetStackTraceStrings env garbage th stackTrace = Run.done r) :
    r = (stackTrace.map (renderAddress env th.disallowSourceInfo),
      afterLookups th stackTrace) := by
  unfold GetStackTraceStrings at h
  rw [hb] at h
  simp only at h
  by_cases h0 : stackTrace.length > 0
  · rw [if_pos h0] at h
    unfold backtrace_symbols at h
    by_cases ha : env.symbolsAllocated = true
    · rw [if_pos ha] at h
      simp only at h
      have := libcLoop_done env garbage hb (wrapInt32 stackTrace.length).toNat stackTrace []
        th [] r (by simpa using h)
      simpa using this
    · rw [if_neg ha] at h
      exact absurd h (by simp)
  · rw [if_neg h0] at h
    have hnil : stackTrace = [] := List.length_eq_zero.mp (by omega)
    subst hnil
    simp only [Run.done.injEq] at h
    rw [← h]
    simp [afterLookups]

/-- Whatever the backend, a `GetStackTraceStrings` call that returns leaves the thread as the
lookups of some addresses leave it. -/
theorem GetStackTraceStrings_thread (env : Env) (garbage : Memory) (th : Thread)
    (stackTrace : List Nat) (r : List (List Nat) × Thread)
    (h : GetStackTraceStrings env garbage th stackTrace = Run.done r) :
    ∃ addresses, r.2 = afterLookups th addresses := by
  unfold GetStackTraceStrings at h
  cases hb : env.backend with
  | NoBacktrace =>
    rw [hb] at h
    simp only [Run.done.injEq] at h
    exact ⟨[], by rw [← h]; simp [afterLookups]⟩
  | GccUnwind =>
    rw [hb] at h
    simp only [Run.done.injEq] at h
    exact ⟨[], by rw [← h]; simp [afterLookups]⟩
  | LibcBacktrace =>
    rw [hb] at h
    simp only at h
    by_cases h0 : stackTrace.length > 0
    · rw [if_pos h0] at h
      cases hs : backtrace_symbols env stackTrace (wrapInt32 stackTrace.length) with
      | none =>
        rw [hs] at h
        exact absurd h (by simp)
      | some symbols =>
        rw [hs] at h
        exact ⟨stackTrace, libcLoop_thread env garbage symbols stackTrace 0 th [] r h⟩
    · rw [if_neg h0] at h
      simp only [Run.done.injEq] at h
      exact ⟨[], by rw [← h]; simp [afterLookups]⟩

theorem console_foldl_thread (strings : List (List Nat)) (th : Thread) :
    (strings.foldl (fun t frame => consoleErrorf (consoleErrorUtf8 t frame) (cstr "\n") []) th).disallowSourceInfo
        = th.disallowSourceInfo
    ∧ (strings.foldl (fun t frame => consoleErrorf (consoleErrorUtf8 t frame) (cstr "\n") []) th).sourceInfoCalls
        = th.sourceInfoCalls := by
  induction strings generalizing th with
  | nil => exact ⟨rfl, rfl⟩
  | cons frame strings ih =>
    rw [List.foldl_cons]
    obtain ⟨e1, e2⟩ := ih (consoleErrorf (consoleErrorUtf8 th frame) (cstr "\n") [])
    exact ⟨e1.trans rfl, e2.trans rfl⟩

/-- No call of the module clears the flag, and with the flag set no call reaches the
provider. -/
theorem Call_run_flag (env : Env) (garbage : Memory) (call : Call) (th th1 : Thread)
    (hflag : th.disallowSourceInfo = true) (h : call.run env garbage th = Run.done th1) :
    th1.disallowSourceInfo = true ∧ th1.sourceInfoCalls = th.sourceInfoCalls := by
  cases call with
  | getCurrentStackTrace callStack extraSkipFrames =>
    simp only [Call.run] at h
    cases hg : GetCurrentStackTrace env callStack extraSkipFrames with
    | done v => rw [hg] at h; simp only [Run.done.injEq] at h; rw [← h]; exact ⟨hflag, rfl⟩
    | abort last => rw [hg] at h; exact absurd h (by simp)
    | undefined => rw [hg] at h; exact absurd h (by simp)
  | getStackTraceStrings stackTrace =>
    simp only [Call.run] at h
    cases hg : GetStackTraceStrings env garbage th stackTrace with
    | done r =>
      rw [hg] at h
      simp only [Run.done.injEq] at h
      obtain ⟨addresses, hr⟩ := GetStackTraceStrings_thread env garbage th stackTrace r hg
      rw [← h, hr, afterLookups_of_flag th addresses hflag]
      exact ⟨hflag, rfl⟩
    | abort last => rw [hg] at h; exact absurd h (by simp)
    | undefined => rw [hg] at h; exact absurd h (by simp)
  | disallowSourceInfo =>
    simp only [Call.run, Run.done.injEq] at h
    rw [← h]
    exact ⟨rfl, rfl⟩
  | printStackTraceStderr callStack =>
    simp only [Call.run, PrintStackTraceStderr] at h
    cases hc : GetCurrentStackTrace env callStack (if env.windows then 2 else 1) with
    | done stackTrace =>
      rw [hc] at h
      simp only at h
      cases hg : GetStackTraceStrings env garbage th stackTrace.elems with
      | done r =>
        rw [hg] at h
        simp only [Run.done.injEq] at h
        obtain ⟨addresses, hr⟩ := GetStackTraceStrings_thread env garbage th _ r hg
        rw [afterLookups_of_flag th addresses hflag] at hr
        obtain ⟨e1, e2⟩ := console_foldl_thread r.1 r.2
        rw [← h, e1, e2, hr]
        exact ⟨hflag, rfl⟩
      | abort last => rw [hg] at h; exact absurd h (by simp)
      | undefined => rw [hg] at h; exact absurd h (by simp)
    | abort last => rw [hc] at h; exact absurd h (by simp)
    | undefined => rw [hc] at h; exact absurd h (by simp)

theorem runCalls_flag (env : Env) (garbage : Memory) (calls : List Call) :
    ∀ (th th1 : Thread), th.disallowSourceInfo = true →
      runCalls env garbage calls th = Run.done th1 →
        th1.disallowSourceInfo = true ∧ th1.sourceInfoCalls = th.sourceInfoCalls := by
  induction calls with
  | nil =>
    intro th th1 hflag h
    simp only [runCalls, Run.done.injEq] at h
    rw [← h]
    exact ⟨hflag, rfl⟩
  | cons call rest ih =>
    intro th th1 hflag h
    rw [runCalls] at h
    cases hc : call.run env garbage th with
    | done th2 =>
      rw [hc] at h
      obtain ⟨f2, c2⟩ := Call_run_flag env garbage call th th2 hflag hc
      obtain ⟨f1, c1⟩ := ih th2 th1 f2 h
      exact ⟨f1, c1.trans c2⟩
    | abort last => rw [hc] at h; exact absurd h (by simp)
    | undefined => rw [hc] at h; exact absurd h (by simp)

theorem libcLoop_no_abort (env : Env) (garbage : Memory) (symbols : List (List Nat))
    (rest : List Nat) :
    ∀ (index : Nat) (th : Thread) (strings : List (List Nat)) (last : Thread),
      libcLoop env garbage symbols rest index th strings ≠ Run.abort last := by
  induction rest with
  | nil => intro index th strings last h; simp [libcLoop] at h
  | cons address rest ih =>
    intro index th strings last h
    rw [libcLoop] at h
    cases hget : symbols.get? index with
    | none => rw [hget] at h; exact absurd h (by simp)
    | some symbol => rw [hget] at h; exact ih _ _ _ last h

/-- A `GetStackTraceStrings` call that ends in the failed check has not touched the thread. -/
theorem GetStackTraceStrings_abort (env : Env) (garbage : Memory) (th : Thread)
    (stackTrace : List Nat) (last : Thread)
    (h : GetStackTraceStrings env garbage th stackTrace = Run.abort last) : last = th := by
  unfold GetStackTraceStrings at h
  cases hb : env.backend with
  | NoBacktrace => rw [hb] at h; exact absurd h (by simp)
  | GccUnwind => rw [hb] at h; exact absurd h (by simp)
  | LibcBacktrace =>
    rw [hb] at h
    simp only at h
    by_cases h0 : stackTrace.length > 0
    · rw [if_pos h0] at h
      cases hs : backtrace_symbols env stackTrace (wrapInt32 stackTrace.length) with
      | none =>
        rw [hs] at h
        simp only [Run.abort.injEq] at h
        exact h.symm
      | some symbols =>
        rw [hs] at h
        exact absurd h (libcLoop_no_abort env garbage symbols stackTrace 0 th [] last)
    · rw [if_neg h0] at h
      exact absurd h (by simp)

theorem copyFrames_no_abort (buffer : List Nat) (n : Nat) :
    ∀ (index : Int) (result : KStdVector) (last : Thread),
      copyFrames buffer n index result ≠ Run.abort last := by
  induction n with
  | zero => intro index result last h; simp [copyFrames] at h
  | succ n ih =>
    intro index result last h
    rw [copyFrames] at h
    split at h
    · exact absurd h (by simp)
    · split at h
      · exact absurd h (by simp)
      · exact ih _ _ last h

theorem GetCurrentStackTrace_no_abort (env : Env) (callStack : List Frame)
    (extraSkipFrames : Int) (last : Thread) :
    GetCurrentStackTrace env callStack extraSkipFrames ≠ Run.abort last := by
  intro h
  unfold GetCurrentStackTrace at h
  cases hb : env.backend with
  | NoBacktrace => rw [hb] at h; exact absurd h (by simp)
  | GccUnwind => rw [hb] at h; exact absurd h (by simp)
  | LibcBacktrace =>
    rw [hb] at h
    simp only at h
    split at h
    · exact absurd h (by simp)
    · exact copyFrames_no_abort _ _ _ _ last h

/-- A call of the module that ends in the failed check has not touched the thread. -/
theorem Call_run_abort (env : Env) (garbage : Memory) (call : Call) (th last : Thread)
    (h : call.run env garbage th = Run.abort last) : last = th := by
  cases call with
  | getCurrentStackTrace callStack extraSkipFrames =>
    simp only [Call.run] at h
    cases hg : GetCurrentStackTrace env callStack extraSkipFrames with
    | done v => rw [hg] at h; exact absurd h (by simp)
    | abort l => exact absurd hg (GetCurrentStackTrace_no_abort env _ _ l)
    | undefined => rw [hg] at h; exact absurd h (by simp)
  | getStackTraceStrings stackTrace =>
    simp only [Call.run] at h
    cases hg : GetStackTraceStrings env garbage th stackTrace with
    | done r => rw [hg] at h; exact absurd h (by simp)
    | abort l =>
      rw [hg] at h
      simp only [Run.abort.injEq] at h
      rw [← h]
      exact GetStackTraceStrings_abort env garbage th stackTrace l hg
    | undefined => rw [hg] at h; exact absurd h (by simp)
  | disallowSourceInfo => simp [Call.run] at h
  | printStackTraceStderr callStack =>
    simp only [Call.run, PrintStackTraceStderr] at h
    cases hc : GetCurrentStackTrace env callStack (if env.windows then 2 else 1) with
    | done stackTrace =>
      rw [hc] at h
      simp only at h
      cases hg : GetStackTraceStrings env garbage th stackTrace.elems with
      | done r => rw [hg] at h; exact absurd h (by simp)
      | abort l =>
        rw [hg] at h
        simp only [Run.abort.injEq] at h
        rw [← h]
        exact GetStackTraceStrings_abort env garbage th _ l hg
      | undefined => rw [hg] at h; exact absurd h (by simp)
    | abort l => exact absurd hc (GetCurrentStackTrace_no_abort env _ _ l)
    | undefined => rw [hc] at h; exact absurd h (by simp)

theorem runCalls_abort (env : Env) (garbage : Memory) (calls : List Call) :
    ∀ (th last : Thread), th.disallowSourceInfo = true →
      runCalls env garbage calls th = Run.abort last →
        last.disallowSourceInfo = true ∧ last.sourceInfoCalls = th.sourceInfoCalls := by
  induction calls with
  | nil => intro th last _ h; simp [runCalls] at h
  | cons call rest ih =>
    intro th last hflag h
    rw [runCalls] at h
    cases hc : call.run env garbage th with
    | done th2 =>
      rw [hc] at h
      obtain ⟨f2, c2⟩ := Call_run_flag env garbage call th th2 hflag hc
      obtain ⟨f1, c1⟩ := ih th2 last f2 h
      exact ⟨f1, c1.trans c2⟩
    | abort l =>
      rw [hc] at h
      simp only [Run.abort.injEq] at h
      rw [← h, Call_run_abort env garbage call th l hc]
      exact ⟨hflag, rfl⟩
    | undefined => rw [hc] at h; exact absurd h (by simp)

theorem renderAddress_suppressed (env : Env) (address : Nat)
    (hb : env.backend = Backend.LibcBacktrace) :
    renderAddress env true address = cString (env.osSymbol address) := by
  unfold renderAddress
  rw [hb]
  rfl

/-- C6: `DisallowSourceInfo` sets the flag of the thread; whatever calls of the module the
thread makes afterwards, whether they all return or one ends in a failed check, the flag is
still set and the provider `Kotlin_getSourceInfo` has not been called; and on a thread with
the flag set, every `GetStackTraceStrings` call (libc backend) that returns gives for every
address exactly its OS symbol string, with no file or line part, whatever the provider would
answer, and leaves the thread as it was: no call to the provider. The call does return when
`backtrace_symbols` gets its memory and the size fits an `int`. -/
theorem DisallowSourceInfo_suppresses (env : Env) (garbage : Memory) (th : Thread)
    (calls : List Call) (stackTrace : List Nat) (hb : env.backend = Backend.LibcBacktrace) :
    (DisallowSourceInfo th).disallowSourceInfo = true
    ∧ (DisallowSourceInfo th).sourceInfoCalls = th.sourceInfoCalls
    ∧ (∀ th1, runCalls env garbage calls (DisallowSourceInfo th) = Run.done th1 →
        th1.disallowSourceInfo = true ∧ th1.sourceInfoCalls = th.sourceInfoCalls)
    ∧ (∀ last, runCalls env garbage calls (DisallowSourceInfo th) = Run.abort last →
        last.disallowSourceInfo = true ∧ last.sourceInfoCalls = th.sourceInfoCalls)
    ∧ (∀ (th1 : Thread) (r : List (List Nat) × Thread), th1.disallowSourceInfo = true →
        GetStackTraceStrings env garbage th1 stackTrace = Run.done r →
          r = (stackTrace.map (fun address => cString (env.osSymbol address)), th1))
    ∧ (∀ th1 : Thread, th1.disallowSourceInfo = true →
        env.symbolsAllocated = true → stackTrace.length < 2147483648 →
        GetStackTraceStrings env garbage th1 stackTrace
          = Run.done (stackTrace.map (fun address => cString (env.osSymbol address)), th1)) := by
  have hmap : stackTrace.map (renderAddress env true) =
      stackTrace.map (fun address => cString (env.osSymbol address)) := by
    apply List.map_congr_left
    intro a _
    exact renderAddress_suppressed env a hb
  refine ⟨rfl, rfl, ?_, ?_, ?_, ?_⟩
  · intro th1 h
    exact runCalls_flag env garbage calls (DisallowSourceInfo th) th1 rfl h
  · intro last h
    exact runCalls_abort env garbage calls (DisallowSourceInfo th) last rfl h
  · intro th1 r hflag h
    rw [GetStackTraceStrings_libc_done env garbage th1 stackTrace hb r h,
      afterLookups_of_flag th1 stackTrace hflag, hflag, hmap]
  · intro th1 hflag halloc hsize
    rw [GetStackTraceStrings_libc env garbage th1 stackTrace hb halloc hsize,
      afterLookups_of_flag th1 stackTrace hflag, hflag, hmap]

/-- Witness for C6: the thread disallows source info, prints a trace and asks for the strings
of two addresses; the provider, which has `f.kt` for every address, is never called. -/
theorem DisallowSourceInfo_suppresses_witness :
    (sampleEnv Backend.LibcBacktrace).backend = Backend.LibcBacktrace
    ∧ GetStackTraceStrings (sampleEnv Backend.LibcBacktrace) sentinelBuffer
        (DisallowSourceInfo {}) [7, 8]
      = Run.done ([cstr "sym", cstr "sym"], DisallowSourceInfo {})
    ∧ runCalls (sampleEnv Backend.LibcBacktrace) sentinelBuffer
        [Call.printStackTraceStderr [⟨1, 0⟩, ⟨2, 0⟩, ⟨3, 0⟩], Call.getStackTraceStrings [7, 8]]
        (DisallowSourceInfo {})
      = Run.done { disallowSourceInfo := true, sourceInfoCalls := [], stderr := cstr "sym\n" } :=
  ⟨rfl,
    (DisallowSourceInfo_suppresses (sampleEnv Backend.LibcBacktrace) sentinelBuffer {}
      [Call.printStackTraceStderr [⟨1, 0⟩, ⟨2, 0⟩, ⟨3, 0⟩], Call.getStackTraceStrings [7, 8]]
      [7, 8] rfl).2.2.2.2.2
      (DisallowSourceInfo {}) rfl rfl (by decide),
    by decide⟩

/-! ## StackTrace.cpp: capture with more frames skipped than there are -/

theorem wrapInt32_range (z : Int) : -2147483648 ≤ wrapInt32 z ∧ wrapInt32 z < 2147483648 := by
  unfold wrapInt32
  omega

theorem reserve_elems (v : KStdVector) (n : Nat) : (v.reserve n).elems = v.elems := by
  unfold KStdVector.reserve
  split <;> rfl

theorem reserve_empty_capacity (n : Nat) : (KStdVector.reserve {} n).capacity = n := by
  unfold KStdVector.reserve
  by_cases h : 0 < n
  · simp [h]
  · have h0 : n = 0 := by omega
    subst h0
    rfl

/-- The capacity the constructor asks for is the difference reduced modulo `2^32`: the test
`size < 0` never holds. -/
theorem Backtrace_construct_capacity (count skip : Int) :
    (Backtrace.construct count skip).array.capacity = toUInt32 (wrapInt32 (count - skip)) := by
  unfold Backtrace.construct
  simp only [Nat.not_lt_zero, if_false]
  exact reserve_empty_capacity _

theorem Backtrace_construct_elems (count skip : Int) :
    (Backtrace.construct count skip).array.elems = [] := by
  unfold Backtrace.construct
  exact reserve_elems _ _

theorem Backtrace_construct_skipCount (count skip : Int) :
    (Backtrace.construct count skip).skipCount = skip := rfl

/-- Pass 1 counts the frames. -/
theorem depthCount_eq (callStack : List Frame) :
    ∀ depth : Int, 0 ≤ depth → depth + callStack.length < 2147483648 →
      _Unwind_Backtrace callStack depthCountCallback depth = depth + callStack.length := by
  induction callStack with
  | nil => intro depth _ _; simp [_Unwind_Backtrace]
  | cons frame rest ih =>
    intro depth h0 h1
    simp only [List.length_cons, Nat.cast_add, Nat.cast_one] at h1
    have hstep : _Unwind_Backtrace (frame :: rest) depthCountCallback depth =
        _Unwind_Backtrace rest depthCountCallback (depthCountCallback frame depth) := rfl
    have hw : depthCountCallback frame depth = depth + 1 :=
      wrapInt32_of_range _ (by omega) (by omega)
    rw [hstep, hw, ih (depth + 1) (by omega) (by omega)]
    simp only [List.length_cons, Nat.cast_add, Nat.cast_one]
    omega

/-- Pass 2 stores nothing while there are frames to skip. -/
theorem unwind_all_skipped (mingw : Bool) (callStack : List Frame) :
    ∀ b : Backtrace, (callStack.length : Int) ≤ b.skipCount → b.skipCount < 2147483648 →
      (_Unwind_Backtrace callStack (unwindCallback mingw) b).array = b.array := by
  induction callStack with
  | nil => intro b _ _; rfl
  | cons frame rest ih =>
    intro b h0 h1
    simp only [List.length_cons, Nat.cast_add, Nat.cast_one] at h0
    have hstep : _Unwind_Backtrace (frame :: rest) (unwindCallback mingw) b =
        _Unwind_Backtrace rest (unwindCallback mingw) (unwindCallback mingw frame b) := rfl
    have hpos : b.skipCount > 0 := by omega
    have hcb : unwindCallback mingw frame b = { b with skipCount := b.skipCount - 1 } := by
      unfold unwindCallback
      rw [if_pos hpos, wrapInt32_of_range _ (by omega) (by omega)]
    rw [hstep, hcb, ih _ (by show (rest.length : Int) ≤ b.skipCount - 1; omega)
      (by show b.skipCount - 1 < 2147483648; omega)]

/-- Every backend returns a vector without elements when the frames to skip are at least the
frames there are; what the unwind-table backend reserves for it is another matter. -/
theorem GetCurrentStackTrace_overskip_elems (env : Env) (callStack : List Frame)
    (extraSkipFrames : Int)
    (hskip : (callStack.length : Int) ≤ wrapInt32 (1 + extraSkipFrames)) :
    ∃ v, GetCurrentStackTrace env callStack extraSkipFrames = Run.done v ∧ v.elems = [] := by
  unfold GetCurrentStackTrace
  cases env.backend with
  | NoBacktrace => exact ⟨_, rfl, rfl⟩
  | GccUnwind =>
    have key : ∀ b : Backtrace, b.skipCount = wrapInt32 (1 + extraSkipFrames) →
        b.array.elems = [] →
        (if b.array.capacity > 0 then _Unwind_Backtrace callStack (unwindCallback env.mingw) b
          else b).array.elems = [] := by
      intro b hk he
      split
      · rw [unwind_all_skipped env.mingw callStack b (by rw [hk]; exact hskip)
          (by rw [hk]; exact (wrapInt32_range _).2)]
        exact he
      · exact he
    exact ⟨_, rfl, key _ (Backtrace_construct_skipCount _ _) (Backtrace_construct_elems _ _)⟩
  | LibcBacktrace =>
    show ∃ v, (if ((backtrace callStack 32).length : Int) < wrapInt32 (1 + extraSkipFrames)
        then Run.done {}
        else copyFrames (backtrace callStack 32)
          (((backtrace callStack 32).length : Int) - wrapInt32 (1 + extraSkipFrames)).toNat
          (wrapInt32 (1 + extraSkipFrames))
          (KStdVector.reserve {}
            (((backtrace callStack 32).length : Int) - wrapInt32 (1 + extraSkipFrames)).toNat))
        = Run.done v ∧ v.elems = []
    have hb : ((backtrace callStack 32).length : Int) ≤ wrapInt32 (1 + extraSkipFrames) := by
      have : (backtrace callStack 32).length ≤ callStack.length := by
        simp [backtrace]
      omega
    by_cases hlt : ((backtrace callStack 32).length : Int) < wrapInt32 (1 + extraSkipFrames)
    · rw [if_pos hlt]
      exact ⟨_, rfl, rfl⟩
    · rw [if_neg hlt]
      have hz : (((backtrace callStack 32).length : Int) - wrapInt32 (1 + extraSkipFrames)).toNat
          = 0 := by omega
      rw [hz]
      exact ⟨_, rfl, rfl⟩

/-- C4 at a call stack of three frames with `extraSkipFrames = 5`, so six frames to skip: the
unwind-table backend returns a vector without elements for which it has reserved 4294967293
elements, the difference `3 - 6` taken as a `uint32_t`; the libc and the disabled backend
return the empty vector with nothing reserved. -/
theorem GetCurrentStackTrace_overskip_reserve :
    GetCurrentStackTrace (sampleEnv Backend.GccUnwind) [⟨7, 0⟩, ⟨8, 0⟩, ⟨9, 0⟩] 5
      = Run.done { elems := [], capacity := 4294967293 }
    ∧ GetCurrentStackTrace (sampleEnv Backend.LibcBacktrace) [⟨7, 0⟩, ⟨8, 0⟩, ⟨9, 0⟩] 5
      = Run.done { elems := [], capacity := 0 }
    ∧ GetCurrentStackTrace (sampleEnv Backend.NoBacktrace) [⟨7, 0⟩, ⟨8, 0⟩, ⟨9, 0⟩] 5
      = Run.done { elems := [], capacity := 0 } := by
  decide

/-- C9 at `count = 3`, `skip = 6`: the constructor reserves 4294967293 elements where
`max(count - skip, 0)` is 0. In general a negative difference is reserved as `2^32` plus the
difference, and a difference that is not negative is reserved as it is. -/
theorem Backtrace_construct_unclamped :
    (Backtrace.construct 3 6).array.capacity = 4294967293
    ∧ max ((3 : Int) - 6) 0 = 0
    ∧ (∀ count skip : Int, -2147483648 ≤ count - skip → count - skip < 0 →
        ((Backtrace.construct count skip).array.capacity : Int) = 4294967296 + (count - skip))
    ∧ (∀ count skip : Int, 0 ≤ count - skip → count - skip < 2147483648 →
        ((Backtrace.construct count skip).array.capacity : Int) = count - skip) := by
  refine ⟨by decide, by decide, ?_, ?_⟩
  · intro count skip h1 h2
    rw [Backtrace_construct_capacity, wrapInt32_of_range _ h1 (by omega)]
    unfold toUInt32
    omega
  · intro count skip h1 h2
    rw [Backtrace_construct_capacity, wrapInt32_of_range _ (by omega) h2]
    unfold toUInt32
    omega

end KotlinNative
